import Mathlib

/-!
Verification of the streaming HTML snippet injector (`umami_injector.go`).

The Go source is shallowly embedded: bytes are natural numbers, byte slices
are lists, the `streamWriter` becomes an explicit `Machine` state record, and
the real sink (`http.ResponseWriter`) is modelled as an event trace so that
ordering properties (headers before body, flush/hijack delegation) are
observable.  Sink writes may fail according to an explicit oracle `errs`
(one Boolean per underlying write call); an empty oracle means every write
succeeds.
-/

namespace TraefikUmami

/-- Byte strings, as in Go byte slices.  Each element is one byte value. -/
abbrev Bytes := List Nat

/-- ASCII lower-casing of one byte, as `bytes.ToLower` acts on ASCII input. -/
def lowByte (b : Nat) : Nat := if 65 ≤ b ∧ b ≤ 90 then b + 32 else b

/-- Byte-wise ASCII lower-casing.  `bytes.ToLower` / `strings.ToLower` agree
with this exactly on all-ASCII input (Go's ASCII fast path); on non-ASCII or
invalid UTF-8 input Go lowers rune-wise, which can rewrite byte lengths and
shift offsets in the lowered buffer.  Existence of the injector's search
literals (all ASCII, none producible by lowering a non-ASCII rune) coincides
under both lowerings; position-sensitive statements are therefore made under
an explicit all-ASCII hypothesis. -/
def lowBytes (s : Bytes) : Bytes := s.map lowByte

/-- Bytes of an ASCII string literal. -/
def strBytes (s : String) : Bytes := s.toList.map Char.toNat

/-- The whitespace set of the sniffing trim: `bytes.TrimLeft(_, " \t\r\n")`. -/
def isWS (b : Nat) : Bool := b = 32 || b = 9 || b = 13 || b = 10

/-- The whitespace set of `strings.TrimSpace` (ASCII part of `unicode.IsSpace`). -/
def isSpaceGo (b : Nat) : Bool := b = 32 || (9 ≤ b && b ≤ 13)

/-- `bytes.TrimLeft` with the sniffing whitespace set. -/
def trimLeftWS : Bytes → Bytes
  | [] => []
  | b :: t => if isWS b then trimLeftWS t else b :: t

/-- `bytes.Index hay needle` (argument order: needle first), returning the
least index at which `needle` occurs in `hay`, if any. -/
def subIdx (needle : Bytes) : Bytes → Option Nat
  | [] => if needle.isPrefixOf ([] : Bytes) then some 0 else none
  | b :: t =>
    if needle.isPrefixOf (b :: t) then some 0
    else (subIdx needle t).map (· + 1)

/-- `bytes.Contains hay needle` / `strings.Contains`. -/
def subContains (needle hay : Bytes) : Bool := (subIdx needle hay).isSome

/-- Captured header set: header name to ordered list of values (values are
byte strings, as Go strings are byte sequences). -/
abbrev Headers := List (String × List Bytes)

/-- `http.Header.Get`: first value for the key, empty when absent. -/
def hGet (h : Headers) (k : String) : Bytes :=
  match h.find? (fun kv => kv.1 == k) with
  | some (_, v :: _) => v
  | _ => []

/-- `http.Header.Del`: remove every entry for the key. -/
def hDel (h : Headers) (k : String) : Headers := h.filter (fun kv => kv.1 ≠ k)

/-- The three-way `htmlCandidate` classification from the source. -/
inductive HtmlCandidate where
  | candidateNo
  | candidateMaybe
  | candidateYes
deriving DecidableEq, Repr

open HtmlCandidate

/-- `streamWriter.isStatusEligible`: 2xx by default, 2xx-5xx when
`injectOnNon2xx` is set.  Status codes are integers as in Go. -/
def isStatusEligible (injectOnNon2xx : Bool) (status : Int) : Bool :=
  if injectOnNon2xx then 200 ≤ status && status < 600
  else 200 ≤ status && status < 300

/-- `sniffHTML` from the source: classify a body sample when no content type
is declared.  Truncates to 2048 bytes, lower-cases, trims leading whitespace,
then applies the marker rules in source order. -/
def sniffHTML (sample : Bytes) : HtmlCandidate :=
  if sample = [] then candidateMaybe
  else
    let lower := trimLeftWS (lowBytes (sample.take 2048))
    if (strBytes "<!doctype html").isPrefixOf lower then candidateYes
    else if (strBytes "<html").isPrefixOf lower then candidateYes
    else if subContains (strBytes "<head") lower || subContains (strBytes "<body") lower then
      candidateYes
    else if (strBytes "<?xml").isPrefixOf lower then candidateNo
    else candidateMaybe

/-- `streamWriter.htmlCandidateFromHeadersAndSniff`: status gate, then
declared content type, then sniffing of the buffered sample. -/
def htmlCandidateOf (injectOnNon2xx : Bool) (status : Int) (header : Headers)
    (sample : Bytes) : HtmlCandidate :=
  if !(isStatusEligible injectOnNon2xx status) then candidateNo
  else
    let ct := lowBytes (hGet header "Content-Type")
    if subContains (strBytes "text/html") ct
        || subContains (strBytes "application/xhtml+xml") ct then candidateYes
    else if ct.any (fun b => !(isSpaceGo b)) then candidateNo
    else sniffHTML sample

/-- The injected snippet bytes:
`<script defer src="SRC" data-website-id="ID"></script>`. -/
def snippetBytes (scriptSrc websiteID : Bytes) : Bytes :=
  strBytes "<script defer src=\"" ++ scriptSrc ++ strBytes "\" data-website-id=\""
    ++ websiteID ++ strBytes "\"></script>"

/-- `tryInject` from the source: refuse empty buffers and buffers already
containing the script source, otherwise splice the snippet at the index of
the first occurrence of the lowered target in the lowered buffer, falling
back to the literal body-closing tag when enabled.  The source computes the
index in the rune-lowered buffer and slices the original prefix there; with
the byte-wise `lowBytes` the two coincide exactly on all-ASCII buffers, so
splice-position statements carry an all-ASCII hypothesis, while occurrence
and containment statements hold for arbitrary bytes. -/
def tryInject (pfx scriptSrc websiteID injectBeforeTag : Bytes)
    (alsoMatchBodyClose : Bool) : Option Bytes :=
  if pfx = [] then none
  else if subContains scriptSrc pfx then none
  else
    let snippet := snippetBytes scriptSrc websiteID
    let lower := lowBytes pfx
    let target := lowBytes injectBeforeTag
    match subIdx target lower with
    | some idx => some (pfx.take idx ++ snippet ++ pfx.drop idx)
    | none =>
      if alsoMatchBodyClose then
        match subIdx (strBytes "</body>") lower with
        | some idx => some (pfx.take idx ++ snippet ++ pfx.drop idx)
        | none => none
      else none

/-- The `decision` state of the stream writer. -/
inductive Decision where
  | undecided
  | passthrough
  | injecting
deriving DecidableEq, Repr

/-- One observable event on the real sink (`http.ResponseWriter`): replacing
its header map, committing a status line, writing a body chunk, a delegated
flush, a delegated hijack. -/
inductive SinkEv where
  | setHeadersEv (h : Headers)
  | writeHeaderEv (status : Int)
  | writeEv (bs : Bytes)
  | flushEv
  | hijackEv
deriving DecidableEq, Repr

/-- The `streamWriter` together with its real sink.  The sink is an event
trace plus capability flags; `errs` is the oracle of outcomes for successive
underlying body writes (`true` = that write fails), empty meaning success. -/
structure Machine where
  header : Headers
  status : Int
  state : Decision
  wroteHeader : Bool
  headersFlushed : Bool
  lookaheadLimit : Nat
  buf : Bytes
  scriptSrc : Bytes
  websiteID : Bytes
  injectBeforeTag : Bytes
  alsoMatchBodyClose : Bool
  injectOnNon2xx : Bool
  trace : List SinkEv
  errs : List Bool
  hijackable : Bool
  flushable : Bool
deriving DecidableEq, Repr

/-- `newStreamWriter`: fresh per-response state, with the non-positive
look-ahead limit floored to 64 KiB and the captured status defaulting to 200. -/
def newStreamWriter (lookaheadLimit : Int) (scriptSrc websiteID injectBeforeTag : Bytes)
    (alsoMatchBodyClose injectOnNon2xx hijackable flushable : Bool) : Machine where
  header := []
  status := 200
  state := .undecided
  wroteHeader := false
  headersFlushed := false
  lookaheadLimit := if lookaheadLimit ≤ 0 then 65536 else lookaheadLimit.toNat
  buf := []
  scriptSrc := scriptSrc
  websiteID := websiteID
  injectBeforeTag := injectBeforeTag
  alsoMatchBodyClose := alsoMatchBodyClose
  injectOnNon2xx := injectOnNon2xx
  trace := []
  errs := []
  hijackable := hijackable
  flushable := flushable

/-- One underlying sink write (`w.orig.Write`).  A failing write (head of the
oracle `true`) delivers nothing and reports `(0, error)`; otherwise the chunk
is appended to the trace and fully acknowledged. -/
def origWrite (m : Machine) (p : Bytes) : Machine × Nat × Bool :=
  match m.errs with
  | true :: rest => ({ m with errs := rest }, 0, true)
  | false :: rest => ({ m with trace := m.trace ++ [.writeEv p], errs := rest }, p.length, false)
  | [] => ({ m with trace := m.trace ++ [.writeEv p] }, p.length, false)

/-- `streamWriter.WriteHeader`: record the status once. -/
def writeHeaderSW (m : Machine) (code : Int) : Machine :=
  if m.wroteHeader then m else { m with wroteHeader := true, status := code }

/-- `streamWriter.flushHeaders`: copy the captured header set onto the real
sink and commit the status line, guarded to happen at most once. -/
def flushHeaders (m : Machine) : Machine :=
  if m.headersFlushed then m
  else
    { m with
      trace := m.trace ++ [.setHeadersEv m.header, .writeHeaderEv m.status]
      headersFlushed := true }

/-- `streamWriter.flushBuffer`: forward the buffered bytes (write error
discarded, as in the source) and clear the buffer. -/
def flushBuffer (m : Machine) : Machine :=
  if m.buf = [] then m
  else { (origWrite m m.buf).1 with buf := [] }

/-- `streamWriter.prepareHeadersForInjection`: drop the length and validator
headers, since the body is about to change. -/
def prepareHeadersForInjection (m : Machine) : Machine :=
  { m with header := hDel (hDel m.header "Content-Length") "ETag" }

/-- The resolution sequence the source repeats whenever it falls back to
passthrough: set the state, flush headers, flush the buffer. -/
def resolvePassthrough (m : Machine) : Machine :=
  flushBuffer (flushHeaders { m with state := .passthrough })

/-- The tail the source repeats after resolving mid-chunk: forward the part
of the chunk that was not absorbed into the buffer, reporting the sink count
for it, or report the full chunk length when it was absorbed entirely. -/
def forwardRest (m : Machine) (p : Bytes) (consumed : Nat) : Machine × Nat × Bool :=
  if consumed < p.length then origWrite m (p.drop consumed)
  else (m, p.length, false)

/-- Body of `streamWriter.Write` after the initial implicit `WriteHeader(200)`
call, translated branch for branch from the source. -/
def writeCore (m : Machine) (p : Bytes) : Machine × Nat × Bool :=
  if m.state = .passthrough ∨ m.state = .injecting then
    origWrite (flushHeaders m) p
  else if p = [] then (m, 0, false)
  else if hGet m.header "Content-Encoding" ≠ [] then
    origWrite (resolvePassthrough m) p
  else
    let remaining : Int := (m.lookaheadLimit : Int) - m.buf.length
    if remaining ≤ 0 then
      origWrite (resolvePassthrough m) p
    else
      let consumed : Nat := min p.length remaining.toNat
      let m := { m with buf := m.buf ++ p.take consumed }
      let bufBytes := m.buf
      let cand := htmlCandidateOf m.injectOnNon2xx m.status m.header bufBytes
      if cand = candidateNo then
        forwardRest (resolvePassthrough m) p consumed
      else if subContains m.scriptSrc bufBytes then
        forwardRest (resolvePassthrough m) p consumed
      else if cand = candidateMaybe then
        if m.lookaheadLimit ≤ m.buf.length then
          forwardRest (resolvePassthrough m) p consumed
        else (m, p.length, false)
      else
        match tryInject bufBytes m.scriptSrc m.websiteID m.injectBeforeTag
            m.alsoMatchBodyClose with
        | some updated =>
          let m := flushHeaders (prepareHeadersForInjection { m with state := .injecting })
          let r := origWrite m updated
          if r.2.2 then (r.1, p.length, true)
          else if consumed < p.length then
            let r2 := origWrite r.1 (p.drop consumed)
            if r2.2.2 then (r2.1, p.length, true)
            else ({ r2.1 with buf := [] }, p.length, false)
          else ({ r.1 with buf := [] }, p.length, false)
        | none =>
          if m.lookaheadLimit ≤ m.buf.length then
            forwardRest (resolvePassthrough m) p consumed
          else (m, p.length, false)

/-- `streamWriter.Write`: implicit `WriteHeader(200)` on first use, then the
body above. -/
def write (m0 : Machine) (p : Bytes) : Machine × Nat × Bool :=
  writeCore (writeHeaderSW m0 200) p

/-- `streamWriter.finish`: resolve a still-undecided response to passthrough
at end of stream. -/
def finish (m : Machine) : Machine :=
  if m.state = .undecided then resolvePassthrough m else m

/-- `streamWriter.Flush`: force passthrough if undecided, then delegate to
the underlying flusher when the sink supports it. -/
def flushCall (m0 : Machine) : Machine :=
  let m := if m0.state = .undecided then resolvePassthrough m0 else m0
  if m.flushable then { m with trace := m.trace ++ [.flushEv] } else m

/-- `streamWriter.Hijack`: fail with a not-supported error on a sink without
hijack support, otherwise force passthrough if undecided and delegate.  The
returned Boolean is the error indicator. -/
def hijack (m0 : Machine) : Machine × Bool :=
  if !m0.hijackable then (m0, true)
  else
    let m := if m0.state = .undecided then resolvePassthrough m0 else m0
    ({ m with trace := m.trace ++ [.hijackEv] }, false)

/-- Drive the machine over a sequence of upstream chunks. -/
def runWrites (m : Machine) (chunks : List Bytes) : Machine :=
  chunks.foldl (fun m p => (write m p).1) m

/-- A full response: the upstream handler's chunk writes followed by the
middleware's `finish` call. -/
def runResponse (m : Machine) (chunks : List Bytes) : Machine :=
  finish (runWrites m chunks)

/-- A machine at the start of a response: undecided, nothing buffered or
emitted, and a sink whose writes all succeed. -/
def Init (m : Machine) : Prop :=
  m.state = .undecided ∧ m.buf = [] ∧ m.trace = [] ∧ m.errs = [] ∧
    m.headersFlushed = false

/-- Body bytes delivered to the real sink, read off the event trace. -/
def traceBody (t : List SinkEv) : Bytes :=
  (t.filterMap (fun e => match e with | .writeEv bs => some bs | _ => none)).flatten

/-- Status-line commits on the real sink, in order. -/
def traceStatuses (t : List SinkEv) : List Int :=
  t.filterMap (fun e => match e with | .writeHeaderEv s => some s | _ => none)

/-- Header-set replacements on the real sink, in order. -/
def traceHeaderSets (t : List SinkEv) : List Headers :=
  t.filterMap (fun e => match e with | .setHeadersEv h => some h | _ => none)

/-- Whether an event is a status-line commit. -/
def isStatusEv : SinkEv → Bool
  | .writeHeaderEv _ => true
  | _ => false

/-- Whether an event is a body write. -/
def isWriteEv : SinkEv → Bool
  | .writeEv _ => true
  | _ => false

/-- No body write occurs before the first status-line commit. -/
def headerLeadsBody (t : List SinkEv) : Bool :=
  (t.takeWhile (fun e => !(isStatusEv e))).all (fun e => !(isWriteEv e))

/-- The snippet of a machine, from its configured script source and site id. -/
def snippetOf (m : Machine) : Bytes := snippetBytes m.scriptSrc m.websiteID

/-- One of the two splice targets occurs (case-insensitively) in `w`. -/
def targetSeen (m : Machine) (w : Bytes) : Prop :=
  subContains (lowBytes m.injectBeforeTag) (lowBytes w) = true ∨
    (m.alsoMatchBodyClose = true ∧ subContains (strBytes "</body>") (lowBytes w) = true)

/-- Outcome of the next underlying sink write according to the oracle. -/
def headErr : List Bool → Bool
  | true :: _ => true
  | _ => false

/-- The response-independent configuration fields are never changed. -/
def sameParams (a b : Machine) : Prop :=
  b.scriptSrc = a.scriptSrc ∧ b.websiteID = a.websiteID ∧
    b.injectBeforeTag = a.injectBeforeTag ∧ b.alsoMatchBodyClose = a.alsoMatchBodyClose ∧
    b.injectOnNon2xx = a.injectOnNon2xx ∧ b.lookaheadLimit = a.lookaheadLimit

/-- Invariant of one response stream: `h0` is the captured header set at the
start of the response, `inp` the concatenation of the chunks written so far. -/
structure Inv (h0 : Headers) (inp : Bytes) (m : Machine) : Prop where
  errsNil : m.errs = []
  bufLe : m.buf.length ≤ m.lookaheadLimit
  undecidedInv : m.state = .undecided →
    m.buf = inp ∧ m.headersFlushed = false ∧ m.header = h0
  notFlushedInv : m.headersFlushed = false →
    traceBody m.trace = [] ∧ traceStatuses m.trace = [] ∧ traceHeaderSets m.trace = []
  flushedInv : m.headersFlushed = true →
    traceStatuses m.trace = [m.status] ∧ traceHeaderSets m.trace = [m.header] ∧
      m.wroteHeader = true
  passInv : m.state = .passthrough →
    traceBody m.trace = inp ∧ m.buf = [] ∧ m.headersFlushed = true ∧ m.header = h0
  injInv : m.state = .injecting →
    (∃ x y, inp = x ++ y ∧ traceBody m.trace = x ++ snippetOf m ++ y) ∧
      m.buf = [] ∧ m.headersFlushed = true ∧
      m.header = hDel (hDel h0 "Content-Length") "ETag" ∧
      targetSeen m (inp.take m.lookaheadLimit)
  ordInv : headerLeadsBody m.trace = true

/-- Modelled from the spec: the classifier exactly as the spec sentence for
the content-type rules reads, with "non-empty" taken literally (any declared
value, even all-whitespace, counts as non-empty).  Compared against
`htmlCandidateOf`, which is the classifier translated from the source. -/
def specClassifier (injectOnNon2xx : Bool) (status : Int) (ct sample : Bytes) :
    HtmlCandidate :=
  if !(isStatusEligible injectOnNon2xx status) then candidateNo
  else if subContains (strBytes "text/html") (lowBytes ct)
      || subContains (strBytes "application/xhtml+xml") (lowBytes ct) then candidateYes
  else if ct ≠ [] then candidateNo
  else sniffHTML sample

/-- A fresh machine serving an HTML response, used to instantiate theorems at
concrete inputs. -/
def sampleMachine : Machine where
  header := [("Content-Type", [strBytes "text/html"])]
  status := 200
  state := .undecided
  wroteHeader := false
  headersFlushed := false
  lookaheadLimit := 32768
  buf := []
  scriptSrc := strBytes "https://a/script.js"
  websiteID := strBytes "abc"
  injectBeforeTag := strBytes "</head>"
  alsoMatchBodyClose := true
  injectOnNon2xx := false
  trace := []
  errs := []
  hijackable := true
  flushable := true

/-- A fresh machine serving a plain-text response over a sink whose next
write fails. -/
def plainErrMachine : Machine :=
  { sampleMachine with
    header := [("Content-Type", [strBytes "text/plain"])]
    errs := [true] }

/-- A machine already resolved to passthrough with flushed headers, over a
sink whose next write fails. -/
def termErrMachine : Machine :=
  { sampleMachine with
    state := .passthrough
    wroteHeader := true
    headersFlushed := true
    errs := [true] }

/-- A fresh plain-text machine with a tiny look-ahead limit. -/
def tinyPlainMachine : Machine :=
  { sampleMachine with
    header := [("Content-Type", [strBytes "text/plain"])]
    wroteHeader := true
    lookaheadLimit := 4 }

/-- A machine already resolved to passthrough over a clean sink. -/
def passMachine : Machine :=
  { sampleMachine with
    state := .passthrough
    wroteHeader := true
    headersFlushed := true }

/-- A fresh machine whose look-ahead buffer already holds its own snippet. -/
def snippetBufMachine : Machine :=
  { sampleMachine with
    scriptSrc := strBytes "S"
    wroteHeader := true
    buf := snippetBytes (strBytes "S") (strBytes "abc") }

/-- A fresh HTML machine over a sink whose next write fails, set up so that
the failing write is the spliced-buffer write of the injection branch. -/
def injErrMachine : Machine :=
  { sampleMachine with
    scriptSrc := strBytes "S"
    wroteHeader := true
    errs := [true] }

/-- A fresh machine with a held-back buffer, a content-encoding header, and a
sink whose buffered flush succeeds but whose live forward fails. -/
def ceBufErrMachine : Machine :=
  { sampleMachine with
    header := [("Content-Encoding", [strBytes "gzip"])]
    wroteHeader := true
    buf := strBytes "held"
    errs := [false, true] }

/-! ### Substring search lemmas -/

theorem subContains_nil (n : Bytes) : subContains n [] = n.isPrefixOf ([] : Bytes) := by
  by_cases h : n.isPrefixOf ([] : Bytes) = true
  · simp only [subContains, subIdx, h, if_true, Option.isSome_some]
  · have h' : n.isPrefixOf ([] : Bytes) = false := by
      simpa only [Bool.not_eq_true] using h
    simp only [subContains, subIdx, h', Bool.false_eq_true, if_false, Option.isSome_none]

theorem subContains_cons (n : Bytes) (b : Nat) (t : Bytes) :
    subContains n (b :: t) = (n.isPrefixOf (b :: t) || subContains n t) := by
  by_cases h : n.isPrefixOf (b :: t) = true
  · simp only [subContains, subIdx, h, if_true, Option.isSome_some, Bool.true_or]
  · have h' : n.isPrefixOf (b :: t) = false := by
      simpa only [Bool.not_eq_true] using h
    simp only [subContains, subIdx, h', Bool.false_eq_true, if_false, Option.isSome_map',
      Bool.false_or]

/-- `subContains` agrees with list infixes. -/
theorem subContains_infix_iff (n h : Bytes) : subContains n h = true ↔ n <:+: h := by
  induction h with
  | nil => simp [subContains_nil, List.isPrefixOf_iff_prefix]
  | cons b t ih =>
    rw [subContains_cons, List.infix_cons_iff]
    simp only [Bool.or_eq_true, List.isPrefixOf_iff_prefix, ih]

theorem subContains_mono {n a b : Bytes} (hab : a <:+: b) (h : subContains n a = true) :
    subContains n b = true := by
  rw [subContains_infix_iff] at h ⊢
  exact h.trans hab

theorem subContains_append_right {n a : Bytes} (t : Bytes) (h : subContains n a = true) :
    subContains n (a ++ t) = true :=
  subContains_mono (List.prefix_append a t).isInfix h

theorem subContains_sandwich (n a b : Bytes) : subContains n (a ++ n ++ b) = true := by
  rw [subContains_infix_iff]
  exact List.infix_append a n b

theorem subContains_trans {n x y : Bytes} (h1 : subContains n x = true)
    (h2 : subContains x y = true) : subContains n y = true := by
  rw [subContains_infix_iff] at h1 h2 ⊢
  exact h1.trans h2

/-- `subIdx` returns a position where the needle occurs, and the least one. -/
theorem subIdx_some_spec (n : Bytes) : ∀ (h : Bytes) (i : Nat), subIdx n h = some i →
    n.isPrefixOf (h.drop i) = true ∧ ∀ j, j < i → n.isPrefixOf (h.drop j) = false
  | [], i, hi => by
    unfold subIdx at hi
    split at hi
    next hpref =>
      injection hi with hi
      subst hi
      exact ⟨hpref, fun j hj => absurd hj (Nat.not_lt_zero j)⟩
    next => cases hi
  | b :: t, i, hi => by
    unfold subIdx at hi
    split at hi
    next hpref =>
      injection hi with hi
      subst hi
      exact ⟨hpref, fun j hj => absurd hj (Nat.not_lt_zero j)⟩
    next hpref =>
      rcases Option.map_eq_some'.mp hi with ⟨k, hk, rfl⟩
      obtain ⟨h1, h2⟩ := subIdx_some_spec n t k hk
      refine ⟨h1, ?_⟩
      intro j hj
      cases j with
      | zero => simpa only [List.drop_zero, Bool.not_eq_true] using hpref
      | succ j' => exact h2 j' (Nat.lt_of_succ_lt_succ hj)

/-- A needle found by `subIdx` occurs in the haystack. -/
theorem subContains_of_subIdx {n h : Bytes} {i : Nat} (hi : subIdx n h = some i) :
    subContains n h = true := by
  unfold subContains
  rw [hi]
  rfl

/-! ### Lower-casing lemmas -/

theorem lowBytes_append (a b : Bytes) : lowBytes (a ++ b) = lowBytes a ++ lowBytes b := by
  simp [lowBytes]

theorem lowBytes_take (n : Nat) (a : Bytes) : lowBytes (a.take n) = (lowBytes a).take n := by
  simp [lowBytes]

/-! ### Trace lemmas -/

theorem traceBody_append (a b : List SinkEv) :
    traceBody (a ++ b) = traceBody a ++ traceBody b := by
  simp [traceBody]

theorem traceStatuses_append (a b : List SinkEv) :
    traceStatuses (a ++ b) = traceStatuses a ++ traceStatuses b := by
  simp [traceStatuses]

theorem traceHeaderSets_append (a b : List SinkEv) :
    traceHeaderSets (a ++ b) = traceHeaderSets a ++ traceHeaderSets b := by
  simp [traceHeaderSets]

theorem traceBody_single_writeEv (p : Bytes) : traceBody [SinkEv.writeEv p] = p := by
  simp [traceBody]

theorem traceBody_flushEvents (h : Headers) (s : Int) :
    traceBody [SinkEv.setHeadersEv h, SinkEv.writeHeaderEv s] = [] := by
  simp [traceBody]

theorem traceStatuses_single_writeEv (p : Bytes) : traceStatuses [SinkEv.writeEv p] = [] := by
  simp [traceStatuses]

theorem traceStatuses_flushEvents (h : Headers) (s : Int) :
    traceStatuses [SinkEv.setHeadersEv h, SinkEv.writeHeaderEv s] = [s] := by
  simp [traceStatuses]

theorem traceHeaderSets_single_writeEv (p : Bytes) :
    traceHeaderSets [SinkEv.writeEv p] = [] := by
  simp [traceHeaderSets]

theorem traceHeaderSets_flushEvents (h : Headers) (s : Int) :
    traceHeaderSets [SinkEv.setHeadersEv h, SinkEv.writeHeaderEv s] = [h] := by
  simp [traceHeaderSets]

/-! ### Header-before-body ordering lemmas -/

theorem hlb_cons_status (s : Int) (t : List SinkEv) :
    headerLeadsBody (SinkEv.writeHeaderEv s :: t) = true := by
  simp [headerLeadsBody, isStatusEv, List.takeWhile_cons]

theorem hlb_cons_nonstatus (e : SinkEv) (he : isStatusEv e = false) (t : List SinkEv) :
    headerLeadsBody (e :: t) = (!(isWriteEv e) && headerLeadsBody t) := by
  simp [headerLeadsBody, List.takeWhile_cons, he]

/-- Non-status, non-write events are transparent for the ordering check. -/
theorem hlb_cons_other (e : SinkEv) (he : isStatusEv e = false) (hw : isWriteEv e = false)
    (t : List SinkEv) : headerLeadsBody (e :: t) = headerLeadsBody t := by
  rw [hlb_cons_nonstatus e he, hw]
  simp

/-- Once a status line was committed, any further events keep the
header-before-body ordering. -/
theorem hlb_append_of_status (x : List SinkEv) :
    ∀ (t : List SinkEv), traceStatuses t ≠ [] → headerLeadsBody t = true →
      headerLeadsBody (t ++ x) = true
  | [], hs, _ => by simp [traceStatuses] at hs
  | SinkEv.writeHeaderEv s :: t, _, _ => hlb_cons_status s (t ++ x)
  | SinkEv.writeEv bs :: t, _, h => by
    rw [hlb_cons_nonstatus (SinkEv.writeEv bs) rfl] at h
    simp [isWriteEv] at h
  | SinkEv.setHeadersEv hh :: t, hs, h => by
    have hs' : traceStatuses t ≠ [] := by simpa [traceStatuses] using hs
    rw [hlb_cons_other (SinkEv.setHeadersEv hh) rfl rfl] at h
    show headerLeadsBody (SinkEv.setHeadersEv hh :: (t ++ x)) = true
    rw [hlb_cons_other (SinkEv.setHeadersEv hh) rfl rfl]
    exact hlb_append_of_status x t hs' h
  | SinkEv.flushEv :: t, hs, h => by
    have hs' : traceStatuses t ≠ [] := by simpa [traceStatuses] using hs
    rw [hlb_cons_other SinkEv.flushEv rfl rfl] at h
    show headerLeadsBody (SinkEv.flushEv :: (t ++ x)) = true
    rw [hlb_cons_other SinkEv.flushEv rfl rfl]
    exact hlb_append_of_status x t hs' h
  | SinkEv.hijackEv :: t, hs, h => by
    have hs' : traceStatuses t ≠ [] := by simpa [traceStatuses] using hs
    rw [hlb_cons_other SinkEv.hijackEv rfl rfl] at h
    show headerLeadsBody (SinkEv.hijackEv :: (t ++ x)) = true
    rw [hlb_cons_other SinkEv.hijackEv rfl rfl]
    exact hlb_append_of_status x t hs' h

/-- The header-flush event pair can be appended to a trace that committed no
status yet, whatever follows it. -/
theorem hlb_flush_step (hdr : Headers) (s : Int) (rest : List SinkEv) :
    ∀ (t : List SinkEv), traceStatuses t = [] → headerLeadsBody t = true →
      headerLeadsBody (t ++ SinkEv.setHeadersEv hdr :: SinkEv.writeHeaderEv s :: rest) = true
  | [], _, _ => by
    show headerLeadsBody
      (SinkEv.setHeadersEv hdr :: SinkEv.writeHeaderEv s :: rest) = true
    rw [hlb_cons_other (SinkEv.setHeadersEv hdr) rfl rfl]
    exact hlb_cons_status s rest
  | SinkEv.writeHeaderEv s' :: t, hs, _ => by simp [traceStatuses] at hs
  | SinkEv.writeEv bs :: t, _, h => by
    rw [hlb_cons_nonstatus (SinkEv.writeEv bs) rfl] at h
    simp [isWriteEv] at h
  | SinkEv.setHeadersEv hh :: t, hs, h => by
    have hs' : traceStatuses t = [] := by simpa [traceStatuses] using hs
    rw [hlb_cons_other (SinkEv.setHeadersEv hh) rfl rfl] at h
    show headerLeadsBody (SinkEv.setHeadersEv hh ::
      (t ++ SinkEv.setHeadersEv hdr :: SinkEv.writeHeaderEv s :: rest)) = true
    rw [hlb_cons_other (SinkEv.setHeadersEv hh) rfl rfl]
    exact hlb_flush_step hdr s rest t hs' h
  | SinkEv.flushEv :: t, hs, h => by
    have hs' : traceStatuses t = [] := by simpa [traceStatuses] using hs
    rw [hlb_cons_other SinkEv.flushEv rfl rfl] at h
    show headerLeadsBody (SinkEv.flushEv ::
      (t ++ SinkEv.setHeadersEv hdr :: SinkEv.writeHeaderEv s :: rest)) = true
    rw [hlb_cons_other SinkEv.flushEv rfl rfl]
    exact hlb_flush_step hdr s rest t hs' h
  | SinkEv.hijackEv :: t, hs, h => by
    have hs' : traceStatuses t = [] := by simpa [traceStatuses] using hs
    rw [hlb_cons_other SinkEv.hijackEv rfl rfl] at h
    show headerLeadsBody (SinkEv.hijackEv ::
      (t ++ SinkEv.setHeadersEv hdr :: SinkEv.writeHeaderEv s :: rest)) = true
    rw [hlb_cons_other SinkEv.hijackEv rfl rfl]
    exact hlb_flush_step hdr s rest t hs' h

/-! ### Operation characterization lemmas -/

theorem origWrite_ok (m : Machine) (p : Bytes) (he : m.errs = []) :
    origWrite m p = ({ m with trace := m.trace ++ [.writeEv p] }, p.length, false) := by
  unfold origWrite
  rw [he]

theorem origWrite_err (m : Machine) (p : Bytes) :
    (origWrite m p).2.2 = headErr m.errs := by
  unfold origWrite headErr
  cases hm : m.errs with
  | nil => rfl
  | cons b rest => cases b <;> rfl

theorem origWrite_errs_keep (m : Machine) (p : Bytes) :
    (origWrite m p).1.errs = m.errs.tail := by
  unfold origWrite
  cases hm : m.errs with
  | nil => rfl
  | cons b rest => cases b <;> rfl

@[simp] theorem writeHeaderSW_wroteHeader (m : Machine) (c : Int) :
    (writeHeaderSW m c).wroteHeader = true := by
  unfold writeHeaderSW
  split
  · assumption
  · rfl

@[simp] theorem writeHeaderSW_state (m : Machine) (c : Int) :
    (writeHeaderSW m c).state = m.state := by
  unfold writeHeaderSW
  split <;> rfl

@[simp] theorem writeHeaderSW_buf (m : Machine) (c : Int) :
    (writeHeaderSW m c).buf = m.buf := by
  unfold writeHeaderSW
  split <;> rfl

@[simp] theorem writeHeaderSW_header (m : Machine) (c : Int) :
    (writeHeaderSW m c).header = m.header := by
  unfold writeHeaderSW
  split <;> rfl

@[simp] theorem writeHeaderSW_headersFlushed (m : Machine) (c : Int) :
    (writeHeaderSW m c).headersFlushed = m.headersFlushed := by
  unfold writeHeaderSW
  split <;> rfl

@[simp] theorem writeHeaderSW_trace (m : Machine) (c : Int) :
    (writeHeaderSW m c).trace = m.trace := by
  unfold writeHeaderSW
  split <;> rfl

@[simp] theorem writeHeaderSW_errs (m : Machine) (c : Int) :
    (writeHeaderSW m c).errs = m.errs := by
  unfold writeHeaderSW
  split <;> rfl

@[simp] theorem writeHeaderSW_lookaheadLimit (m : Machine) (c : Int) :
    (writeHeaderSW m c).lookaheadLimit = m.lookaheadLimit := by
  unfold writeHeaderSW
  split <;> rfl

@[simp] theorem writeHeaderSW_scriptSrc (m : Machine) (c : Int) :
    (writeHeaderSW m c).scriptSrc = m.scriptSrc := by
  unfold writeHeaderSW
  split <;> rfl

@[simp] theorem writeHeaderSW_websiteID (m : Machine) (c : Int) :
    (writeHeaderSW m c).websiteID = m.websiteID := by
  unfold writeHeaderSW
  split <;> rfl

@[simp] theorem writeHeaderSW_injectBeforeTag (m : Machine) (c : Int) :
    (writeHeaderSW m c).injectBeforeTag = m.injectBeforeTag := by
  unfold writeHeaderSW
  split <;> rfl

@[simp] theorem writeHeaderSW_alsoMatchBodyClose (m : Machine) (c : Int) :
    (writeHeaderSW m c).alsoMatchBodyClose = m.alsoMatchBodyClose := by
  unfold writeHeaderSW
  split <;> rfl

@[simp] theorem writeHeaderSW_injectOnNon2xx (m : Machine) (c : Int) :
    (writeHeaderSW m c).injectOnNon2xx = m.injectOnNon2xx := by
  unfold writeHeaderSW
  split <;> rfl

@[simp] theorem writeHeaderSW_hijackable (m : Machine) (c : Int) :
    (writeHeaderSW m c).hijackable = m.hijackable := by
  unfold writeHeaderSW
  split <;> rfl

@[simp] theorem writeHeaderSW_flushable (m : Machine) (c : Int) :
    (writeHeaderSW m c).flushable = m.flushable := by
  unfold writeHeaderSW
  split <;> rfl

theorem flushHeaders_id (m : Machine) (h : m.headersFlushed = true) :
    flushHeaders m = m := by
  unfold flushHeaders
  rw [h]
  rfl

theorem flushHeaders_eq (m : Machine) (h : m.headersFlushed = false) :
    flushHeaders m =
      { m with
        trace := m.trace ++ [.setHeadersEv m.header, .writeHeaderEv m.status]
        headersFlushed := true } := by
  unfold flushHeaders
  rw [h]
  rfl

/-- Explicit form of the passthrough resolution under a clean sink. -/
theorem resolvePassthrough_eq (m : Machine) (hf : m.headersFlushed = false)
    (he : m.errs = []) :
    resolvePassthrough m =
      { m with
        state := .passthrough
        headersFlushed := true
        buf := []
        trace := m.trace ++ SinkEv.setHeadersEv m.header :: SinkEv.writeHeaderEv m.status ::
          (if m.buf = [] then [] else [SinkEv.writeEv m.buf]) } := by
  obtain ⟨hdr, st, dec, wh, hfl, ll, bf, ssc, wid, ibt, amb, n2x, tr, er, hj, flb⟩ := m
  simp only at hf he
  subst hf he
  unfold resolvePassthrough
  rw [flushHeaders_eq _ rfl]
  by_cases hb : bf = ([] : Bytes)
  · subst hb
    unfold flushBuffer
    simp
  · unfold flushBuffer
    simp only [hb, if_false]
    rw [origWrite_ok _ _ rfl]
    simp [hb]

/-! ### The stream invariant -/

theorem sameParams_rfl (a : Machine) : sameParams a a :=
  ⟨rfl, rfl, rfl, rfl, rfl, rfl⟩

theorem sameParams_trans {a b c : Machine} (h1 : sameParams a b) (h2 : sameParams b c) :
    sameParams a c := by
  obtain ⟨p1, p2, p3, p4, p5, p6⟩ := h1
  obtain ⟨q1, q2, q3, q4, q5, q6⟩ := h2
  exact ⟨q1.trans p1, q2.trans p2, q3.trans p3, q4.trans p4, q5.trans p5, q6.trans p6⟩

/-- Body bytes carried by the optional buffer-flush event. -/
theorem traceBody_bufEvt (b : Bytes) :
    traceBody (if b = [] then [] else [SinkEv.writeEv b]) = b := by
  split
  next h => simp [traceBody, h]
  next => simp [traceBody]

theorem traceStatuses_bufEvt (b : Bytes) :
    traceStatuses (if b = [] then [] else [SinkEv.writeEv b]) = [] := by
  split <;> simp [traceStatuses]

theorem traceHeaderSets_bufEvt (b : Bytes) :
    traceHeaderSets (if b = [] then [] else [SinkEv.writeEv b]) = [] := by
  split <;> simp [traceHeaderSets]

/-- Body bytes carried by the optional remainder-forward event. -/
theorem traceBody_dropEvt (p : Bytes) (c : Nat) :
    traceBody (if c < p.length then [SinkEv.writeEv (p.drop c)] else []) = p.drop c := by
  split
  next => simp [traceBody]
  next h => rw [List.drop_eq_nil_of_le (Nat.le_of_not_lt h)]; simp [traceBody]

theorem traceStatuses_dropEvt (p : Bytes) (c : Nat) :
    traceStatuses (if c < p.length then [SinkEv.writeEv (p.drop c)] else []) = [] := by
  split <;> simp [traceStatuses]

theorem traceHeaderSets_dropEvt (p : Bytes) (c : Nat) :
    traceHeaderSets (if c < p.length then [SinkEv.writeEv (p.drop c)] else []) = [] := by
  split <;> simp [traceHeaderSets]

/-- Build the invariant for a machine resolved to passthrough. -/
theorem inv_pass_generic (h0 : Headers) (inp2 : Bytes) (M : Machine)
    (hstM : M.state = .passthrough) (hfM : M.headersFlushed = true) (hbM : M.buf = [])
    (heM : M.errs = []) (hwM : M.wroteHeader = true) (hhdM : M.header = h0)
    (hbody : traceBody M.trace = inp2) (hst : traceStatuses M.trace = [M.status])
    (hhs : traceHeaderSets M.trace = [M.header]) (hord : headerLeadsBody M.trace = true) :
    Inv h0 inp2 M := by
  refine ⟨heM, ?_, ?_, ?_, ?_, ?_, ?_, hord⟩
  · rw [hbM]; exact Nat.zero_le _
  · intro h; rw [hstM] at h; exact Decision.noConfusion h
  · intro h; rw [hfM] at h; exact Bool.noConfusion h
  · intro _; exact ⟨hst, hhs, hwM⟩
  · intro _; exact ⟨hbody, hbM, hfM, hhdM⟩
  · intro h; rw [hstM] at h; exact Decision.noConfusion h

/-- Build the invariant for a machine that performed the injection. -/
theorem inv_inj_generic (h0 : Headers) (inp2 : Bytes) (M : Machine)
    (hstM : M.state = .injecting) (hfM : M.headersFlushed = true) (hbM : M.buf = [])
    (heM : M.errs = []) (hwM : M.wroteHeader = true)
    (hhdM : M.header = hDel (hDel h0 "Content-Length") "ETag")
    (hbody : ∃ x y, inp2 = x ++ y ∧ traceBody M.trace = x ++ snippetOf M ++ y)
    (hts : targetSeen M (inp2.take M.lookaheadLimit))
    (hst : traceStatuses M.trace = [M.status])
    (hhs : traceHeaderSets M.trace = [M.header]) (hord : headerLeadsBody M.trace = true) :
    Inv h0 inp2 M := by
  refine ⟨heM, ?_, ?_, ?_, ?_, ?_, ?_, hord⟩
  · rw [hbM]; exact Nat.zero_le _
  · intro h; rw [hstM] at h; exact Decision.noConfusion h
  · intro h; rw [hfM] at h; exact Bool.noConfusion h
  · intro _; exact ⟨hst, hhs, hwM⟩
  · intro h; rw [hstM] at h; exact Decision.noConfusion h
  · intro _; exact ⟨hbody, hbM, hfM, hhdM, hts⟩

/-- Build the invariant for a machine still undecided. -/
theorem inv_und_generic (h0 : Headers) (inp2 : Bytes) (M : Machine)
    (hstM : M.state = .undecided) (hfM : M.headersFlushed = false) (hbM : M.buf = inp2)
    (heM : M.errs = []) (hhdM : M.header = h0) (hbl : M.buf.length ≤ M.lookaheadLimit)
    (hbody : traceBody M.trace = []) (hst : traceStatuses M.trace = [])
    (hhs : traceHeaderSets M.trace = []) (hord : headerLeadsBody M.trace = true) :
    Inv h0 inp2 M := by
  refine ⟨heM, hbl, ?_, ?_, ?_, ?_, ?_, hord⟩
  · intro _; exact ⟨hbM, hfM, hhdM⟩
  · intro _; exact ⟨hbody, hst, hhs⟩
  · intro h; rw [hfM] at h; exact Bool.noConfusion h
  · intro h; rw [hstM] at h; exact Decision.noConfusion h
  · intro h; rw [hstM] at h; exact Decision.noConfusion h

/-! ### tryInject characterization and prefix transport -/

/-- A successful injection splices the snippet at a found occurrence of one of
the two targets. -/
theorem tryInject_some_shape {pfx s w tgt : Bytes} {also : Bool} {u : Bytes}
    (h : tryInject pfx s w tgt also = some u) :
    ∃ i, u = pfx.take i ++ snippetBytes s w ++ pfx.drop i ∧
      (subContains (lowBytes tgt) (lowBytes pfx) = true ∨
        (also = true ∧ subContains (strBytes "</body>") (lowBytes pfx) = true)) := by
  simp only [tryInject] at h
  split at h
  next => exact Option.noConfusion h
  next =>
    split at h
    next => exact Option.noConfusion h
    next =>
      split at h
      next idx heq =>
        injection h with h
        exact ⟨idx, h.symm, Or.inl (subContains_of_subIdx heq)⟩
      next heq =>
        split at h
        next halso =>
          split at h
          next idx2 heq2 =>
            injection h with h
            exact ⟨idx2, h.symm, Or.inr ⟨halso, subContains_of_subIdx heq2⟩⟩
          next => exact Option.noConfusion h
        next => exact Option.noConfusion h

/-- The snippet contains the script source bytes. -/
theorem snippet_contains_src (s w : Bytes) : subContains s (snippetBytes s w) = true := by
  have hsh : snippetBytes s w = strBytes "<script defer src=\"" ++ s
      ++ (strBytes "\" data-website-id=\"" ++ w ++ strBytes "\"></script>") := by
    simp [snippetBytes]
  rw [hsh]
  exact subContains_sandwich s (strBytes "<script defer src=\"")
    (strBytes "\" data-website-id=\"" ++ w ++ strBytes "\"></script>")

/-- A successful injection implies the script source was absent from the
buffer. -/
theorem tryInject_some_no_src {pfx s w tgt : Bytes} {also : Bool} {u : Bytes}
    (h : tryInject pfx s w tgt also = some u) : subContains s pfx = false := by
  by_cases hc : subContains s pfx = true
  · exfalso
    simp [tryInject, hc] at h
  · simpa using hc

/-- The output of a successful injection contains the script source bytes. -/
theorem tryInject_out_contains {pfx s w tgt : Bytes} {also : Bool} {u : Bytes}
    (h : tryInject pfx s w tgt also = some u) : subContains s u = true := by
  obtain ⟨i, hu, _⟩ := tryInject_some_shape h
  have h1 : subContains (snippetBytes s w) u = true := by
    rw [hu]
    exact subContains_sandwich (snippetBytes s w) (pfx.take i) (pfx.drop i)
  exact subContains_trans (snippet_contains_src s w) h1

/-- A prefix of bounded length survives truncation at the bound. -/
theorem prefix_take_of_le {B L2 : Bytes} {limit : Nat} (hpre : B <+: L2)
    (hlen : B.length ≤ limit) : B <+: L2.take limit := by
  rw [List.prefix_iff_eq_take] at hpre
  rw [hpre]
  have h2 := List.take_take B.length limit L2
  rw [Nat.min_eq_left hlen] at h2
  rw [← h2]
  exact List.take_prefix _ _

/-- An occurrence in the lower-cased prefix occurs in the lower-cased
truncated stream. -/
theorem subContains_low_take {n B L2 : Bytes} {limit : Nat}
    (hpre : B <+: L2) (hlen : B.length ≤ limit)
    (h : subContains n (lowBytes B) = true) :
    subContains n (lowBytes (L2.take limit)) = true :=
  subContains_mono ((prefix_take_of_le hpre hlen).map lowByte).isInfix h

/-- Truncation of a longer stream extends truncation of its prefix. -/
theorem take_prefix_append (n : Nat) (a b : Bytes) : a.take n <+: (a ++ b).take n := by
  rw [List.take_append_eq_append_take]
  exact List.prefix_append _ _

/-- `targetSeen` is monotone in the inspected stream. -/
theorem targetSeen_mono {m : Machine} {w w' : Bytes} (hpre : w <+: w')
    (h : targetSeen m w) : targetSeen m w' := by
  rcases h with h | ⟨ha, h⟩
  · exact Or.inl (subContains_mono (hpre.map lowByte).isInfix h)
  · exact Or.inr ⟨ha, subContains_mono (hpre.map lowByte).isInfix h⟩

/-- When the chunk does not fit entirely, the buffer reaches the limit. -/
theorem consumed_eq_of_lt {bl ll pl : Nat} (hr : 0 < (ll : Int) - bl)
    (hlt : bl + min pl ((ll : Int) - bl).toNat < ll) :
    min pl ((ll : Int) - bl).toNat = pl := by omega

/-- The extended buffer never exceeds the look-ahead limit. -/
theorem bufB_le {bl ll pl : Nat} (hr : 0 < (ll : Int) - bl) :
    bl + min pl ((ll : Int) - bl).toNat ≤ ll := by omega

/-! ### Trace shapes produced by a header flush -/

theorem append_flush_assoc (t : List SinkEv) (h : Headers) (s : Int) (B E : List SinkEv) :
    (t ++ SinkEv.setHeadersEv h :: SinkEv.writeHeaderEv s :: B) ++ E =
      t ++ SinkEv.setHeadersEv h :: SinkEv.writeHeaderEv s :: (B ++ E) := by
  simp

theorem traceBody_flushShape (t : List SinkEv) (h : Headers) (s : Int) (rest : List SinkEv) :
    traceBody (t ++ SinkEv.setHeadersEv h :: SinkEv.writeHeaderEv s :: rest) =
      traceBody t ++ traceBody rest := by
  simp [traceBody]

theorem traceStatuses_flushShape (t : List SinkEv) (h : Headers) (s : Int)
    (rest : List SinkEv) :
    traceStatuses (t ++ SinkEv.setHeadersEv h :: SinkEv.writeHeaderEv s :: rest) =
      traceStatuses t ++ s :: traceStatuses rest := by
  simp [traceStatuses]

theorem traceHeaderSets_flushShape (t : List SinkEv) (h : Headers) (s : Int)
    (rest : List SinkEv) :
    traceHeaderSets (t ++ SinkEv.setHeadersEv h :: SinkEv.writeHeaderEv s :: rest) =
      traceHeaderSets t ++ h :: traceHeaderSets rest := by
  simp [traceHeaderSets]

/-! ### Branch lemmas for `writeCore` -/

/-- Resolving to passthrough and then forwarding the whole chunk preserves the
invariant (content-encoding and exhausted-buffer branches). -/
theorem inv_resolve_origWrite (h0 : Headers) (inp p : Bytes) (m : Machine)
    (hs : m.state = .undecided) (hw : m.wroteHeader = true) (hI : Inv h0 inp m) :
    Inv h0 (inp ++ p) ((origWrite (resolvePassthrough m) p).1) ∧
      sameParams m ((origWrite (resolvePassthrough m) p).1) := by
  obtain ⟨hb, hf, hhd⟩ := hI.undecidedInv hs
  obtain ⟨hbody, hst, hhs⟩ := hI.notFlushedInv hf
  have he := hI.errsNil
  have hord := hI.ordInv
  have he2 : (resolvePassthrough m).errs = [] := by
    rw [resolvePassthrough_eq m hf he]
    exact he
  rw [origWrite_ok _ _ he2]
  dsimp only
  rw [resolvePassthrough_eq m hf he]
  dsimp only
  rw [append_flush_assoc]
  refine ⟨inv_pass_generic h0 (inp ++ p) _ rfl rfl rfl he hw hhd ?_ ?_ ?_ ?_,
    rfl, rfl, rfl, rfl, rfl, rfl⟩
  · rw [traceBody_flushShape, hbody, traceBody_append, traceBody_bufEvt,
      traceBody_single_writeEv, hb]
    simp
  · rw [traceStatuses_flushShape, hst, traceStatuses_append, traceStatuses_bufEvt,
      traceStatuses_single_writeEv]
    simp
  · rw [traceHeaderSets_flushShape, hhs, traceHeaderSets_append, traceHeaderSets_bufEvt,
      traceHeaderSets_single_writeEv]
    simp
  · exact hlb_flush_step m.header m.status _ m.trace hst hord

/-- Resolving to passthrough after absorbing part of the chunk, then forwarding
the remainder, preserves the invariant (the four mid-chunk passthrough
branches). -/
theorem inv_resolve_forwardRest (h0 : Headers) (inp p : Bytes) (m : Machine) (c : Nat)
    (hs : m.state = .undecided) (hw : m.wroteHeader = true) (hI : Inv h0 inp m) :
    Inv h0 (inp ++ p)
        ((forwardRest (resolvePassthrough { m with buf := m.buf ++ p.take c }) p c).1) ∧
      sameParams m
        ((forwardRest (resolvePassthrough { m with buf := m.buf ++ p.take c }) p c).1) := by
  obtain ⟨hb, hf, hhd⟩ := hI.undecidedInv hs
  obtain ⟨hbody, hst, hhs⟩ := hI.notFlushedInv hf
  have he := hI.errsNil
  have hord := hI.ordInv
  have hf2 : ({ m with buf := m.buf ++ p.take c } : Machine).headersFlushed = false := hf
  have he2 : ({ m with buf := m.buf ++ p.take c } : Machine).errs = [] := he
  have he3 : (resolvePassthrough { m with buf := m.buf ++ p.take c }).errs = [] := by
    rw [resolvePassthrough_eq _ hf2 he2]
    exact he
  unfold forwardRest
  by_cases hcl : c < p.length
  · rw [if_pos hcl, origWrite_ok _ _ he3]
    dsimp only
    rw [resolvePassthrough_eq _ hf2 he2]
    dsimp only
    rw [append_flush_assoc]
    refine ⟨inv_pass_generic h0 (inp ++ p) _ rfl rfl rfl he hw hhd ?_ ?_ ?_ ?_,
      rfl, rfl, rfl, rfl, rfl, rfl⟩
    · rw [traceBody_flushShape, hbody, traceBody_append, traceBody_bufEvt,
        traceBody_single_writeEv, hb]
      simp
    · rw [traceStatuses_flushShape, hst, traceStatuses_append, traceStatuses_bufEvt,
        traceStatuses_single_writeEv]
      simp
    · rw [traceHeaderSets_flushShape, hhs, traceHeaderSets_append, traceHeaderSets_bufEvt,
        traceHeaderSets_single_writeEv]
      simp
    · exact hlb_flush_step m.header m.status _ m.trace hst hord
  · rw [if_neg hcl]
    dsimp only
    rw [resolvePassthrough_eq _ hf2 he2]
    dsimp only
    have htk : p.take c = p := List.take_of_length_le (Nat.le_of_not_lt hcl)
    refine ⟨inv_pass_generic h0 (inp ++ p) _ rfl rfl rfl he hw hhd ?_ ?_ ?_ ?_,
      rfl, rfl, rfl, rfl, rfl, rfl⟩
    · rw [traceBody_flushShape, hbody, traceBody_bufEvt, hb, htk]
      simp
    · rw [traceStatuses_flushShape, hst, traceStatuses_bufEvt]
      simp
    · rw [traceHeaderSets_flushShape, hhs, traceHeaderSets_bufEvt]
      simp
    · exact hlb_flush_step m.header m.status _ m.trace hst hord


theorem inv_keep_buffering (h0 : Headers) (inp p : Bytes) (m : Machine) (c : Nat)
    (hs : m.state = .undecided) (hI : Inv h0 inp m)
    (hc : min p.length (((m.lookaheadLimit : Int) - m.buf.length).toNat) = c)
    (hlim : ¬ m.lookaheadLimit ≤ (m.buf ++ p.take c).length) :
    Inv h0 (inp ++ p) ({ m with buf := m.buf ++ p.take c }) ∧
      sameParams m ({ m with buf := m.buf ++ p.take c }) := by
  obtain ⟨hb, hf, hhd⟩ := hI.undecidedInv hs
  obtain ⟨hbody, hst, hhs⟩ := hI.notFlushedInv hf
  have hlen : (m.buf ++ p.take c).length = m.buf.length + min c p.length := by
    simp [List.length_append, List.length_take]
  have hcp : c = p.length := by
    rw [hlen] at hlim
    omega
  refine ⟨inv_und_generic h0 (inp ++ p) _ hs hf ?_ hI.errsNil hhd ?_ hbody hst hhs hI.ordInv,
    rfl, rfl, rfl, rfl, rfl, rfl⟩
  · show m.buf ++ p.take c = inp ++ p
    rw [hcp, List.take_length, hb]
  · show (m.buf ++ p.take c).length ≤ m.lookaheadLimit
    exact Nat.le_of_not_le hlim

theorem writeCore_preserves (h0 : Headers) (inp p : Bytes) (m : Machine)
    (hI : Inv h0 inp m) (hw : m.wroteHeader = true) :
    Inv h0 (inp ++ p) (writeCore m p).1 ∧ sameParams m (writeCore m p).1 := by
  by_cases hterm : m.state = .passthrough ∨ m.state = .injecting
  · have hflushed : m.headersFlushed = true := by
      rcases hterm with h | h
      · exact (hI.passInv h).2.2.1
      · exact (hI.injInv h).2.2.1
    have he := hI.errsNil
    unfold writeCore
    rw [if_pos hterm, flushHeaders_id m hflushed, origWrite_ok m p he]
    dsimp only
    constructor
    · rcases hterm with h | h
      · obtain ⟨hbody, hbuf, _, hhd⟩ := hI.passInv h
        obtain ⟨hstat, hsets, _⟩ := hI.flushedInv hflushed
        refine inv_pass_generic h0 (inp ++ p) _ h hflushed hbuf he hw hhd ?_ ?_ ?_ ?_
        · rw [traceBody_append, hbody, traceBody_single_writeEv]
        · rw [traceStatuses_append, hstat, traceStatuses_single_writeEv]
          simp
        · rw [traceHeaderSets_append, hsets, traceHeaderSets_single_writeEv]
          simp
        · refine hlb_append_of_status _ m.trace ?_ hI.ordInv
          rw [hstat]
          simp
      · obtain ⟨⟨x, y, hxy, hbody⟩, hbuf, _, hhd, hts⟩ := hI.injInv h
        obtain ⟨hstat, hsets, _⟩ := hI.flushedInv hflushed
        refine inv_inj_generic h0 (inp ++ p) _ h hflushed hbuf he hw hhd ?_ ?_ ?_ ?_ ?_
        · refine ⟨x, y ++ p, by rw [hxy, List.append_assoc], ?_⟩
          rw [traceBody_append, hbody, traceBody_single_writeEv]
          simp only [List.append_assoc]
          rfl
        · exact targetSeen_mono (take_prefix_append m.lookaheadLimit inp p) hts
        · rw [traceStatuses_append, hstat, traceStatuses_single_writeEv]
          simp
        · rw [traceHeaderSets_append, hsets, traceHeaderSets_single_writeEv]
          simp
        · refine hlb_append_of_status _ m.trace ?_ hI.ordInv
          rw [hstat]
          simp
    · exact ⟨rfl, rfl, rfl, rfl, rfl, rfl⟩
  · have hs : m.state = .undecided := by
      cases hstate : m.state
      · rfl
      · exact absurd (Or.inl hstate) hterm
      · exact absurd (Or.inr hstate) hterm
    obtain ⟨hb, hf, hhd⟩ := hI.undecidedInv hs
    obtain ⟨hbody, hst, hhs⟩ := hI.notFlushedInv hf
    have he := hI.errsNil
    have hord := hI.ordInv
    unfold writeCore
    rw [if_neg hterm]
    by_cases hp : p = []
    · rw [if_pos hp]
      dsimp only
      subst hp
      rw [List.append_nil]
      exact ⟨hI, sameParams_rfl m⟩
    · rw [if_neg hp]
      by_cases hce : hGet m.header "Content-Encoding" = []
      · rw [if_neg (not_not_intro hce)]
        by_cases hrem : (m.lookaheadLimit : Int) - m.buf.length ≤ 0
        · rw [if_pos hrem]
          exact inv_resolve_origWrite h0 inp p m hs hw hI
        · rw [if_neg hrem]
          dsimp only
          generalize hc : min p.length (((m.lookaheadLimit : Int) - m.buf.length).toNat) = c
          by_cases hcand : htmlCandidateOf m.injectOnNon2xx m.status m.header
            (m.buf ++ p.take c) = candidateNo
          · rw [if_pos hcand]
            exact inv_resolve_forwardRest h0 inp p m c hs hw hI
          · rw [if_neg hcand]
            by_cases hcont : subContains m.scriptSrc (m.buf ++ p.take c) = true
            · rw [if_pos hcont]
              exact inv_resolve_forwardRest h0 inp p m c hs hw hI
            · rw [if_neg hcont]
              by_cases hmaybe : htmlCandidateOf m.injectOnNon2xx m.status m.header
                (m.buf ++ p.take c) = candidateMaybe
              · rw [if_pos hmaybe]
                by_cases hlim : m.lookaheadLimit ≤ (m.buf ++ p.take c).length
                · rw [if_pos hlim]
                  exact inv_resolve_forwardRest h0 inp p m c hs hw hI
                · rw [if_neg hlim]
                  dsimp only
                  exact inv_keep_buffering h0 inp p m c hs hI hc hlim
              · rw [if_neg hmaybe]
                cases hinj : tryInject (m.buf ++ p.take c) m.scriptSrc m.websiteID
                    m.injectBeforeTag m.alsoMatchBodyClose with
                | none =>
                  dsimp only
                  by_cases hlim : m.lookaheadLimit ≤ (m.buf ++ p.take c).length
                  · rw [if_pos hlim]
                    exact inv_resolve_forwardRest h0 inp p m c hs hw hI
                  · rw [if_neg hlim]
                    dsimp only
                    exact inv_keep_buffering h0 inp p m c hs hI hc hlim
                | some u =>
                  dsimp only
                  simp only [prepareHeadersForInjection, flushHeaders, origWrite, hf, he,
                    Bool.false_eq_true, if_false]
                  obtain ⟨i, hu, hfound⟩ := tryInject_some_shape hinj
                  have hpre : m.buf ++ p.take c <+: inp ++ p := by
                    refine ⟨p.drop c, ?_⟩
                    rw [List.append_assoc, List.take_append_drop, hb]
                  have hlen : (m.buf ++ p.take c).length ≤ m.lookaheadLimit := by
                    rw [List.length_append, List.length_take]
                    omega
                  by_cases hcl : c < p.length
                  · rw [if_pos hcl]
                    dsimp only
                    rw [show ((m.trace ++
                        [SinkEv.setHeadersEv (hDel (hDel m.header "Content-Length") "ETag"),
                          SinkEv.writeHeaderEv m.status]) ++ [SinkEv.writeEv u]) ++
                          [SinkEv.writeEv (p.drop c)] = m.trace ++
                        SinkEv.setHeadersEv (hDel (hDel m.header "Content-Length") "ETag") ::
                          SinkEv.writeHeaderEv m.status ::
                          [SinkEv.writeEv u, SinkEv.writeEv (p.drop c)] from by simp]
                    refine ⟨inv_inj_generic h0 (inp ++ p) _ rfl rfl rfl rfl hw
                      (by rw [hhd]) ?_ ?_ ?_ ?_ ?_, rfl, rfl, rfl, rfl, rfl, rfl⟩
                    · refine ⟨(m.buf ++ p.take c).take i,
                        (m.buf ++ p.take c).drop i ++ p.drop c, ?_, ?_⟩
                      · rw [← List.append_assoc, List.take_append_drop, hb,
                          List.append_assoc, List.take_append_drop]
                      · rw [traceBody_flushShape, hbody, hu]
                        simp [traceBody, snippetOf, List.append_assoc]
                    · rcases hfound with hfound | ⟨halso, hfound⟩
                      · exact Or.inl (subContains_low_take hpre hlen hfound)
                      · exact Or.inr ⟨halso, subContains_low_take hpre hlen hfound⟩
                    · rw [traceStatuses_flushShape, hst]
                      simp [traceStatuses]
                    · rw [traceHeaderSets_flushShape, hhs]
                      simp [traceHeaderSets]
                    · exact hlb_flush_step _ m.status _ m.trace hst hord
                  · rw [if_neg hcl]
                    dsimp only
                    have htk : p.take c = p := List.take_of_length_le (Nat.le_of_not_lt hcl)
                    rw [show (m.trace ++
                        [SinkEv.setHeadersEv (hDel (hDel m.header "Content-Length") "ETag"),
                          SinkEv.writeHeaderEv m.status]) ++ [SinkEv.writeEv u] = m.trace ++
                        SinkEv.setHeadersEv (hDel (hDel m.header "Content-Length") "ETag") ::
                          SinkEv.writeHeaderEv m.status :: [SinkEv.writeEv u] from by simp]
                    refine ⟨inv_inj_generic h0 (inp ++ p) _ rfl rfl rfl rfl hw
                      (by rw [hhd]) ?_ ?_ ?_ ?_ ?_, rfl, rfl, rfl, rfl, rfl, rfl⟩
                    · refine ⟨(m.buf ++ p.take c).take i, (m.buf ++ p.take c).drop i, ?_, ?_⟩
                      · rw [List.take_append_drop, htk, hb]
                      · rw [traceBody_flushShape, hbody, hu]
                        simp [traceBody, snippetOf, List.append_assoc]
                    · rcases hfound with hfound | ⟨halso, hfound⟩
                      · exact Or.inl (subContains_low_take hpre hlen hfound)
                      · exact Or.inr ⟨halso, subContains_low_take hpre hlen hfound⟩
                    · rw [traceStatuses_flushShape, hst]
                      simp [traceStatuses]
                    · rw [traceHeaderSets_flushShape, hhs]
                      simp [traceHeaderSets]
                    · exact hlb_flush_step _ m.status _ m.trace hst hord
      · rw [if_pos hce]
        exact inv_resolve_origWrite h0 inp p m hs hw hI

/-- The implicit `WriteHeader(200)` call preserves the invariant. -/
theorem inv_writeHeaderSW (h0 : Headers) (inp : Bytes) (m : Machine) (c : Int)
    (hI : Inv h0 inp m) : Inv h0 inp (writeHeaderSW m c) := by
  by_cases hwh : m.wroteHeader = true
  · rw [show writeHeaderSW m c = m from by unfold writeHeaderSW; rw [if_pos hwh]]
    exact hI
  · have hwh' : m.wroteHeader = false := by simpa using hwh
    rw [show writeHeaderSW m c = { m with wroteHeader := true, status := c } from by
      unfold writeHeaderSW; rw [if_neg hwh]]
    refine ⟨hI.errsNil, hI.bufLe, hI.undecidedInv, hI.notFlushedInv, ?_,
      hI.passInv, hI.injInv, hI.ordInv⟩
    intro hfl
    have hcontra := (hI.flushedInv hfl).2.2
    rw [hwh'] at hcontra
    exact Bool.noConfusion hcontra

/-- One upstream `Write` call preserves the invariant, extending the input by
the chunk. -/
theorem write_preserves (h0 : Headers) (inp p : Bytes) (m : Machine) (hI : Inv h0 inp m) :
    Inv h0 (inp ++ p) (write m p).1 ∧ sameParams m (write m p).1 := by
  unfold write
  have h1 := inv_writeHeaderSW h0 inp m 200 hI
  have h2 := writeCore_preserves h0 inp p (writeHeaderSW m 200) h1
    (writeHeaderSW_wroteHeader m 200)
  refine ⟨h2.1, sameParams_trans ?_ h2.2⟩
  exact ⟨writeHeaderSW_scriptSrc m 200, writeHeaderSW_websiteID m 200,
    writeHeaderSW_injectBeforeTag m 200, writeHeaderSW_alsoMatchBodyClose m 200,
    writeHeaderSW_injectOnNon2xx m 200, writeHeaderSW_lookaheadLimit m 200⟩

/-- The invariant holds along any sequence of upstream chunk writes. -/
theorem runWrites_inv (h0 : Headers) :
    ∀ (chunks : List Bytes) (m : Machine) (inp : Bytes), Inv h0 inp m →
      Inv h0 (inp ++ chunks.flatten) (runWrites m chunks) ∧
        sameParams m (runWrites m chunks)
  | [], m, inp, hI => by
    rw [show runWrites m [] = m from rfl, List.flatten_nil, List.append_nil]
    exact ⟨hI, sameParams_rfl m⟩
  | p :: rest, m, inp, hI => by
    have h1 := write_preserves h0 inp p m hI
    have h2 := runWrites_inv h0 rest (write m p).1 (inp ++ p) h1.1
    rw [show runWrites m (p :: rest) = runWrites (write m p).1 rest from rfl]
    rw [List.flatten_cons, ← List.append_assoc]
    exact ⟨h2.1, sameParams_trans h1.2 h2.2⟩

/-- The invariant holds at the start of a response. -/
theorem init_inv (m : Machine) (hInit : Init m) : Inv m.header [] m := by
  obtain ⟨hs, hb, htr, he, hf⟩ := hInit
  refine ⟨he, ?_, fun _ => ⟨hb, hf, rfl⟩, fun _ => ?_, fun hfl => ?_, fun hps => ?_,
    fun hin => ?_, ?_⟩
  · rw [hb]; exact Nat.zero_le _
  · rw [htr]; exact ⟨rfl, rfl, rfl⟩
  · rw [hf] at hfl; exact Bool.noConfusion hfl
  · rw [hs] at hps; exact Decision.noConfusion hps
  · rw [hs] at hin; exact Decision.noConfusion hin
  · rw [htr]; rfl

/-- End-of-stream extraction: after `finish`, the decision is terminal, the
sink saw exactly one header flush before any body byte, and the body is the
input, possibly with one spliced snippet. -/
theorem finish_extract (h0 : Headers) (inp : Bytes) (m : Machine) (hI : Inv h0 inp m) :
    ((finish m).state = .passthrough ∨ (finish m).state = .injecting) ∧
      ((finish m).state = .passthrough →
        traceBody (finish m).trace = inp ∧ (finish m).header = h0) ∧
      ((finish m).state = .injecting →
        (∃ x y, inp = x ++ y ∧ traceBody (finish m).trace = x ++ snippetOf (finish m) ++ y) ∧
          (finish m).header = hDel (hDel h0 "Content-Length") "ETag" ∧
          targetSeen (finish m) (inp.take (finish m).lookaheadLimit)) ∧
      traceStatuses (finish m).trace = [(finish m).status] ∧
      traceHeaderSets (finish m).trace = [(finish m).header] ∧
      headerLeadsBody (finish m).trace = true ∧ sameParams m (finish m) := by
  unfold finish
  by_cases hs : m.state = .undecided
  · rw [if_pos hs]
    obtain ⟨hb, hf, hhd⟩ := hI.undecidedInv hs
    obtain ⟨hbody, hst, hhs⟩ := hI.notFlushedInv hf
    rw [resolvePassthrough_eq m hf hI.errsNil]
    refine ⟨Or.inl rfl, fun _ => ⟨?_, hhd⟩, fun hcon => ?_, ?_, ?_, ?_,
      rfl, rfl, rfl, rfl, rfl, rfl⟩
    · rw [traceBody_flushShape, hbody, traceBody_bufEvt, hb]
      rfl
    · exact Decision.noConfusion hcon
    · rw [traceStatuses_flushShape, hst, traceStatuses_bufEvt]
      rfl
    · rw [traceHeaderSets_flushShape, hhs, traceHeaderSets_bufEvt]
      rfl
    · exact hlb_flush_step m.header m.status _ m.trace hst hI.ordInv
  · rw [if_neg hs]
    have hterm : m.state = .passthrough ∨ m.state = .injecting := by
      cases hstate : m.state
      · exact absurd hstate hs
      · exact Or.inl rfl
      · exact Or.inr rfl
    rcases hterm with h | h
    · obtain ⟨hbody, hbuf, hfl, hhd⟩ := hI.passInv h
      obtain ⟨hstat, hsets, _⟩ := hI.flushedInv hfl
      refine ⟨Or.inl h, fun _ => ⟨hbody, hhd⟩, fun hcon => ?_, hstat, hsets,
        hI.ordInv, sameParams_rfl m⟩
      rw [h] at hcon
      exact Decision.noConfusion hcon
    · obtain ⟨hdec, hbuf, hfl, hhd, hts⟩ := hI.injInv h
      obtain ⟨hstat, hsets, _⟩ := hI.flushedInv hfl
      refine ⟨Or.inr h, fun hcon => ?_, fun _ => ⟨hdec, hhd, hts⟩, hstat, hsets,
        hI.ordInv, sameParams_rfl m⟩
      rw [h] at hcon
      exact Decision.noConfusion hcon

/-- All stream facts for a complete response from a fresh machine. -/
theorem runResponse_facts (m0 : Machine) (chunks : List Bytes) (hInit : Init m0) :
    ((runResponse m0 chunks).state = .passthrough ∨
        (runResponse m0 chunks).state = .injecting) ∧
      ((runResponse m0 chunks).state = .passthrough →
        traceBody (runResponse m0 chunks).trace = chunks.flatten ∧
          (runResponse m0 chunks).header = m0.header) ∧
      ((runResponse m0 chunks).state = .injecting →
        (∃ x y, chunks.flatten = x ++ y ∧
            traceBody (runResponse m0 chunks).trace =
              x ++ snippetOf (runResponse m0 chunks) ++ y) ∧
          (runResponse m0 chunks).header =
            hDel (hDel m0.header "Content-Length") "ETag" ∧
          targetSeen (runResponse m0 chunks)
            (chunks.flatten.take (runResponse m0 chunks).lookaheadLimit)) ∧
      traceStatuses (runResponse m0 chunks).trace = [(runResponse m0 chunks).status] ∧
      traceHeaderSets (runResponse m0 chunks).trace = [(runResponse m0 chunks).header] ∧
      headerLeadsBody (runResponse m0 chunks).trace = true ∧
      sameParams m0 (runResponse m0 chunks) := by
  have h1 := init_inv m0 hInit
  have h2 := runWrites_inv m0.header chunks m0 [] h1
  rw [List.nil_append] at h2
  have h3 := finish_extract m0.header chunks.flatten (runWrites m0 chunks) h2.1
  rw [show runResponse m0 chunks = finish (runWrites m0 chunks) from rfl]
  exact ⟨h3.1, h3.2.1, h3.2.2.1, h3.2.2.2.1, h3.2.2.2.2.1, h3.2.2.2.2.2.1,
    sameParams_trans h2.2 h3.2.2.2.2.2.2⟩

/-! ### Field and body-only characterizations -/

@[simp] theorem flushHeaders_state (m : Machine) : (flushHeaders m).state = m.state := by
  unfold flushHeaders
  split <;> rfl

@[simp] theorem flushHeaders_errs (m : Machine) : (flushHeaders m).errs = m.errs := by
  unfold flushHeaders
  split <;> rfl

@[simp] theorem flushHeaders_buf (m : Machine) : (flushHeaders m).buf = m.buf := by
  unfold flushHeaders
  split <;> rfl

theorem flushHeaders_bodyTrace (m : Machine) :
    traceBody (flushHeaders m).trace = traceBody m.trace := by
  unfold flushHeaders
  split
  · rfl
  · show traceBody (m.trace ++ [SinkEv.setHeadersEv m.header, SinkEv.writeHeaderEv m.status])
      = traceBody m.trace
    rw [traceBody_append, traceBody_flushEvents, List.append_nil]

theorem origWrite_state (m : Machine) (p : Bytes) : (origWrite m p).1.state = m.state := by
  unfold origWrite
  cases hm : m.errs with
  | nil => rfl
  | cons b rest => cases b <;> rfl

/-- State, buffer, body, and oracle after a passthrough resolution on a sink
whose next writes succeed, with no assumption on the header-flush flag. -/
theorem resolvePassthrough_body (m : Machine) (he : m.errs = []) :
    (resolvePassthrough m).state = .passthrough ∧ (resolvePassthrough m).buf = [] ∧
      traceBody (resolvePassthrough m).trace = traceBody m.trace ++ m.buf ∧
      (resolvePassthrough m).errs = [] := by
  unfold resolvePassthrough flushBuffer
  split
  next hb =>
    have hb' : m.buf = [] := by
      rw [flushHeaders_buf] at hb
      exact hb
    refine ⟨flushHeaders_state _, ?_, ?_, ?_⟩
    · rw [flushHeaders_buf]
      exact hb'
    · rw [flushHeaders_bodyTrace]
      show traceBody m.trace = traceBody m.trace ++ m.buf
      rw [hb', List.append_nil]
    · rw [flushHeaders_errs]
      exact he
  next hb =>
    have he2 : (flushHeaders { m with state := Decision.passthrough }).errs = [] := by
      rw [flushHeaders_errs]
      exact he
    rw [origWrite_ok _ _ he2]
    refine ⟨flushHeaders_state _, rfl, ?_, he2⟩
    show traceBody ((flushHeaders { m with state := Decision.passthrough }).trace ++
      [SinkEv.writeEv (flushHeaders { m with state := Decision.passthrough }).buf]) =
      traceBody m.trace ++ m.buf
    rw [traceBody_append, traceBody_single_writeEv, flushHeaders_buf]
    have := flushHeaders_bodyTrace ({ m with state := Decision.passthrough })
    rw [this]

/-- Body and oracle after forwarding the unbuffered remainder. -/
theorem forwardRest_body (m : Machine) (p : Bytes) (c : Nat) (he : m.errs = []) :
    (forwardRest m p c).1.state = m.state ∧
      traceBody (forwardRest m p c).1.trace = traceBody m.trace ++ p.drop c ∧
      (forwardRest m p c).2.2 = false ∧
      (forwardRest m p c).2.1 = (if c < p.length then p.length - c else p.length) := by
  unfold forwardRest
  split
  next hcl =>
    rw [origWrite_ok _ _ he]
    refine ⟨rfl, ?_, rfl, ?_⟩
    · show traceBody (m.trace ++ [SinkEv.writeEv (p.drop c)]) = traceBody m.trace ++ p.drop c
      rw [traceBody_append, traceBody_single_writeEv]
    · show (p.drop c).length = p.length - c
      exact List.length_drop c p
  next hcl =>
    refine ⟨rfl, ?_, rfl, rfl⟩
    rw [List.drop_eq_nil_of_le (Nat.le_of_not_lt hcl), List.append_nil]

/-- `targetSeen` depends only on the shared configuration. -/
theorem targetSeen_params {a b : Machine} (hp : sameParams a b) {w : Bytes}
    (h : targetSeen b w) : targetSeen a w := by
  unfold targetSeen at h ⊢
  rw [hp.2.2.1, hp.2.2.2.1] at h
  exact h

/-- When the script source is already in the buffer, the next chunk write
resolves to passthrough and forwards everything unchanged. -/
theorem writeCore_src_buffered (m : Machine) (p : Bytes)
    (hs : m.state = .undecided) (he : m.errs = []) (hp : p ≠ [])
    (hcsrc : subContains m.scriptSrc m.buf = true) :
    (writeCore m p).1.state = .passthrough ∧
      traceBody (writeCore m p).1.trace = traceBody m.trace ++ m.buf ++ p := by
  unfold writeCore
  have hterm : ¬(m.state = .passthrough ∨ m.state = .injecting) := by
    rw [hs]
    rintro (h | h) <;> exact Decision.noConfusion h
  rw [if_neg hterm, if_neg hp]
  by_cases hce : hGet m.header "Content-Encoding" = []
  · rw [if_neg (not_not_intro hce)]
    by_cases hrem : (m.lookaheadLimit : Int) - m.buf.length ≤ 0
    · rw [if_pos hrem]
      obtain ⟨h1, _, h3, h4⟩ := resolvePassthrough_body m he
      rw [origWrite_ok _ _ h4]
      dsimp only
      refine ⟨h1, ?_⟩
      rw [traceBody_append, traceBody_single_writeEv, h3]
    · rw [if_neg hrem]
      dsimp only
      generalize hcg : min p.length (((m.lookaheadLimit : Int) - m.buf.length).toNat) = c
      have hcont : subContains m.scriptSrc (m.buf ++ p.take c) = true :=
        subContains_append_right _ hcsrc
      have heB : ({ m with buf := m.buf ++ p.take c } : Machine).errs = [] := he
      obtain ⟨r1, _, r3, r4⟩ :=
        resolvePassthrough_body ({ m with buf := m.buf ++ p.take c }) heB
      obtain ⟨f1, f2, _, _⟩ :=
        forwardRest_body (resolvePassthrough { m with buf := m.buf ++ p.take c }) p c r4
      have hstate : (forwardRest
          (resolvePassthrough { m with buf := m.buf ++ p.take c }) p c).1.state =
          Decision.passthrough := by
        rw [f1, r1]
      have hbody : traceBody (forwardRest
          (resolvePassthrough { m with buf := m.buf ++ p.take c }) p c).1.trace =
          traceBody m.trace ++ m.buf ++ p := by
        rw [f2, r3]
        show traceBody m.trace ++ (m.buf ++ p.take c) ++ p.drop c =
          traceBody m.trace ++ m.buf ++ p
        rw [List.append_assoc, List.append_assoc, List.append_assoc,
          List.take_append_drop]
      by_cases hcand : htmlCandidateOf m.injectOnNon2xx m.status m.header
        (m.buf ++ p.take c) = candidateNo
      · rw [if_pos hcand]
        exact ⟨hstate, hbody⟩
      · rw [if_neg hcand, if_pos hcont]
        exact ⟨hstate, hbody⟩
  · rw [if_pos hce]
    obtain ⟨h1, _, h3, h4⟩ := resolvePassthrough_body m he
    rw [origWrite_ok _ _ h4]
    dsimp only
    refine ⟨h1, ?_⟩
    rw [traceBody_append, traceBody_single_writeEv, h3]


/-- Partial absorb followed by a passthrough resolution: the returned count
covers only the forwarded remainder. -/
theorem writeCore_short_count (m : Machine) (p : Bytes)
    (hs : m.state = .undecided) (he : m.errs = [])
    (hce : hGet m.header "Content-Encoding" = [])
    (hrem : 0 < (m.lookaheadLimit : Int) - m.buf.length)
    (hlt : ((m.lookaheadLimit : Int) - m.buf.length).toNat < p.length)
    (hcand : htmlCandidateOf m.injectOnNon2xx m.status m.header
      (m.buf ++ p.take (((m.lookaheadLimit : Int) - m.buf.length).toNat)) = candidateNo) :
    (writeCore m p).2.1 = p.length - ((m.lookaheadLimit : Int) - m.buf.length).toNat ∧
      (writeCore m p).2.1 < p.length ∧ (writeCore m p).2.2 = false ∧
      (writeCore m p).1.state = .passthrough ∧
      traceBody (writeCore m p).1.trace = traceBody m.trace ++ m.buf ++ p := by
  have hp : p ≠ [] := by
    intro hcon
    rw [hcon] at hlt
    simp at hlt
  have hterm : ¬(m.state = .passthrough ∨ m.state = .injecting) := by
    rw [hs]
    rintro (h | h) <;> exact Decision.noConfusion h
  have hminc : min p.length (((m.lookaheadLimit : Int) - m.buf.length).toNat) =
      ((m.lookaheadLimit : Int) - m.buf.length).toNat :=
    Nat.min_eq_right (Nat.le_of_lt hlt)
  unfold writeCore
  rw [if_neg hterm, if_neg hp, if_neg (not_not_intro hce),
    if_neg (by omega : ¬((m.lookaheadLimit : Int) - m.buf.length ≤ 0))]
  dsimp only
  rw [hminc, if_pos hcand]
  have heB : ({ m with
      buf := m.buf ++ p.take (((m.lookaheadLimit : Int) - m.buf.length).toNat) } :
      Machine).errs = [] := he
  obtain ⟨r1, _, r3, r4⟩ := resolvePassthrough_body _ heB
  obtain ⟨f1, f2, f3, f4⟩ := forwardRest_body (resolvePassthrough { m with
    buf := m.buf ++ p.take (((m.lookaheadLimit : Int) - m.buf.length).toNat) }) p
    (((m.lookaheadLimit : Int) - m.buf.length).toNat) r4
  refine ⟨?_, ?_, f3, ?_, ?_⟩
  · rw [f4, if_pos hlt]
  · rw [f4, if_pos hlt]
    omega
  · rw [f1, r1]
  · rw [f2, r3]
    show traceBody m.trace ++
      (m.buf ++ p.take (((m.lookaheadLimit : Int) - m.buf.length).toNat)) ++
      p.drop (((m.lookaheadLimit : Int) - m.buf.length).toNat) =
      traceBody m.trace ++ m.buf ++ p
    rw [List.append_assoc, List.append_assoc, List.append_assoc, List.take_append_drop]


/-! ### Claim theorems -/

/-- C2 counterexample: a non-empty buffer that does not contain the snippet,
with the primary target present, on which `tryInject` nevertheless fails
because the buffer contains the bare script source URL. -/
theorem c2_counterexample :
    strBytes "<p>S</p></head>" ≠ [] ∧
      subContains (snippetBytes (strBytes "S") (strBytes "abc"))
        (strBytes "<p>S</p></head>") = false ∧
      subContains (lowBytes (strBytes "</head>"))
        (lowBytes (strBytes "<p>S</p></head>")) = true ∧
      tryInject (strBytes "<p>S</p></head>") (strBytes "S") (strBytes "abc")
        (strBytes "</head>") true = none := by
  decide

/-- C2 (amended): for every non-empty all-ASCII buffer with an all-ASCII
primary target, not already containing the script source URL, `tryInject`
splices the snippet immediately before the first case-insensitive occurrence
of the primary target, else of the enabled secondary target, else fails;
bytes outside the splice point are preserved.  The ASCII hypotheses delimit
where Go's rune-wise `bytes.ToLower` is length-preserving, so the index into
the lowered buffer is also the occurrence position in the original bytes; a
non-ASCII or invalid UTF-8 byte before the match shifts the code's splice
offset away from the occurrence. -/
theorem c2_splice_first_occurrence (pfx s w tgt : Bytes) (also : Bool)
    (_hascii : ∀ b ∈ pfx, b < 128) (_hasciiTgt : ∀ b ∈ tgt, b < 128)
    (hne : pfx ≠ []) (hno : subContains s pfx = false) :
    (∀ i, subIdx (lowBytes tgt) (lowBytes pfx) = some i →
      tryInject pfx s w tgt also = some (pfx.take i ++ snippetBytes s w ++ pfx.drop i) ∧
        (lowBytes tgt).isPrefixOf ((lowBytes pfx).drop i) = true ∧
        ∀ j, j < i → (lowBytes tgt).isPrefixOf ((lowBytes pfx).drop j) = false) ∧
    (subIdx (lowBytes tgt) (lowBytes pfx) = none → also = true →
      ∀ i, subIdx (strBytes "</body>") (lowBytes pfx) = some i →
        tryInject pfx s w tgt also = some (pfx.take i ++ snippetBytes s w ++ pfx.drop i) ∧
          (strBytes "</body>").isPrefixOf ((lowBytes pfx).drop i) = true ∧
          ∀ j, j < i → (strBytes "</body>").isPrefixOf ((lowBytes pfx).drop j) = false) ∧
    (subIdx (lowBytes tgt) (lowBytes pfx) = none →
      (also = false ∨ subIdx (strBytes "</body>") (lowBytes pfx) = none) →
      tryInject pfx s w tgt also = none) := by
  refine ⟨?_, ?_, ?_⟩
  · intro i hi
    refine ⟨?_, (subIdx_some_spec _ _ i hi).1, (subIdx_some_spec _ _ i hi).2⟩
    simp only [tryInject]
    rw [if_neg hne, hno, if_neg Bool.false_ne_true, hi]
  · intro hnone halso i hi
    refine ⟨?_, (subIdx_some_spec _ _ i hi).1, (subIdx_some_spec _ _ i hi).2⟩
    simp only [tryInject]
    rw [if_neg hne, hno, if_neg Bool.false_ne_true, hnone]
    dsimp only
    rw [if_pos halso, hi]
  · intro hnone hsec
    simp only [tryInject]
    rw [if_neg hne, hno, if_neg Bool.false_ne_true, hnone]
    dsimp only
    rcases hsec with hsec | hsec
    · rw [hsec, if_neg Bool.false_ne_true]
    · by_cases halso : also = true
      · rw [if_pos halso, hsec]
      · rw [if_neg halso]

/-- C2 witness: the splice on a concrete mixed-case buffer. -/
theorem c2_splice_first_occurrence_witness :
    tryInject (strBytes "<html><HEAD>x</HEAD>") (strBytes "https://u/s.js") (strBytes "abc")
        (strBytes "</head>") true =
      some ((strBytes "<html><HEAD>x</HEAD>").take 13 ++
        snippetBytes (strBytes "https://u/s.js") (strBytes "abc") ++
        (strBytes "<html><HEAD>x</HEAD>").drop 13) ∧
      (lowBytes (strBytes "</head>")).isPrefixOf
        ((lowBytes (strBytes "<html><HEAD>x</HEAD>")).drop 13) = true ∧
      ∀ j, j < 13 → (lowBytes (strBytes "</head>")).isPrefixOf
        ((lowBytes (strBytes "<html><HEAD>x</HEAD>")).drop j) = false :=
  (c2_splice_first_occurrence (strBytes "<html><HEAD>x</HEAD>") (strBytes "https://u/s.js")
    (strBytes "abc") (strBytes "</head>") true (by decide) (by decide) (by decide)
    (by decide)).1 13 (by decide)

/-- C7 counterexample: a whitespace-only declared content type is non-empty,
so the claim's ordered rules classify the response Ineligible, while the
source classifier treats it as empty and sniffs the HTML body to Eligible. -/
theorem c7_counterexample :
    hGet [("Content-Type", [[32]])] "Content-Type" = [32] ∧
      htmlCandidateOf false 200 [("Content-Type", [[32]])] (strBytes "<html>") =
        candidateYes ∧
      specClassifier false 200 [32] (strBytes "<html>") = candidateNo := by
  decide
/-- C7 (amended): the classifier follows the spec's ordered rules, with the
content-type emptiness test reading "empty after trimming whitespace"; the
sniff rules follow in source order. -/
theorem c7_classifier_rules (flag : Bool) (status : Int) (header : Headers) (sample : Bytes) :
    (isStatusEligible flag status = false →
      htmlCandidateOf flag status header sample = candidateNo) ∧
    (isStatusEligible flag status = true →
      (subContains (strBytes "text/html") (lowBytes (hGet header "Content-Type")) = true ∨
        subContains (strBytes "application/xhtml+xml")
          (lowBytes (hGet header "Content-Type")) = true) →
      htmlCandidateOf flag status header sample = candidateYes) ∧
    (isStatusEligible flag status = true →
      subContains (strBytes "text/html") (lowBytes (hGet header "Content-Type")) = false →
      subContains (strBytes "application/xhtml+xml")
        (lowBytes (hGet header "Content-Type")) = false →
      (lowBytes (hGet header "Content-Type")).any (fun b => !(isSpaceGo b)) = true →
      htmlCandidateOf flag status header sample = candidateNo) ∧
    (isStatusEligible flag status = true →
      subContains (strBytes "text/html") (lowBytes (hGet header "Content-Type")) = false →
      subContains (strBytes "application/xhtml+xml")
        (lowBytes (hGet header "Content-Type")) = false →
      (lowBytes (hGet header "Content-Type")).any (fun b => !(isSpaceGo b)) = false →
      htmlCandidateOf flag status header sample = sniffHTML sample) ∧
    sniffHTML [] = candidateMaybe ∧
    (sample ≠ [] →
      ((strBytes "<!doctype html").isPrefixOf
          (trimLeftWS (lowBytes (sample.take 2048))) = true ∨
        (strBytes "<html").isPrefixOf (trimLeftWS (lowBytes (sample.take 2048))) = true ∨
        subContains (strBytes "<head") (trimLeftWS (lowBytes (sample.take 2048))) = true ∨
        subContains (strBytes "<body") (trimLeftWS (lowBytes (sample.take 2048))) = true) →
      sniffHTML sample = candidateYes) ∧
    (sample ≠ [] →
      (strBytes "<!doctype html").isPrefixOf
        (trimLeftWS (lowBytes (sample.take 2048))) = false →
      (strBytes "<html").isPrefixOf (trimLeftWS (lowBytes (sample.take 2048))) = false →
      subContains (strBytes "<head") (trimLeftWS (lowBytes (sample.take 2048))) = false →
      subContains (strBytes "<body") (trimLeftWS (lowBytes (sample.take 2048))) = false →
      (strBytes "<?xml").isPrefixOf (trimLeftWS (lowBytes (sample.take 2048))) = true →
      sniffHTML sample = candidateNo) ∧
    (sample ≠ [] →
      (strBytes "<!doctype html").isPrefixOf
        (trimLeftWS (lowBytes (sample.take 2048))) = false →
      (strBytes "<html").isPrefixOf (trimLeftWS (lowBytes (sample.take 2048))) = false →
      subContains (strBytes "<head") (trimLeftWS (lowBytes (sample.take 2048))) = false →
      subContains (strBytes "<body") (trimLeftWS (lowBytes (sample.take 2048))) = false →
      (strBytes "<?xml").isPrefixOf (trimLeftWS (lowBytes (sample.take 2048))) = false →
      sniffHTML sample = candidateMaybe) := by
  refine ⟨?_, ?_, ?_, ?_, rfl, ?_, ?_, ?_⟩
  · intro h
    simp [htmlCandidateOf, h]
  · intro h htok
    rcases htok with htok | htok <;> simp [htmlCandidateOf, h, htok]
  · intro h h1 h2 hany
    simp [htmlCandidateOf, h, h1, h2, hany]
  · intro h h1 h2 hany
    simp [htmlCandidateOf, h, h1, h2, hany]
  · intro hne hyes
    unfold sniffHTML
    rw [if_neg hne]
    dsimp only
    split_ifs with d1 d2 d3 d4
    any_goals rfl
    all_goals
      exfalso
      rcases hyes with h | h | h | h
      · exact d1 h
      · exact d2 h
      · exact d3 (by simp [h])
      · exact d3 (by simp [h])
  · intro hne h1 h2 h3 h4 hxml
    unfold sniffHTML
    rw [if_neg hne]
    dsimp only
    rw [if_neg (by simp [h1]), if_neg (by simp [h2]),
      if_neg (by simp [h3, h4]), if_pos hxml]
  · intro hne h1 h2 h3 h4 hxml
    unfold sniffHTML
    rw [if_neg hne]
    dsimp only
    rw [if_neg (by simp [h1]), if_neg (by simp [h2]),
      if_neg (by simp [h3, h4]), if_neg (by simp [hxml])]

/-- C7 witness: the rules applied at a declared HTML response and at a 404. -/
theorem c7_classifier_rules_witness :
    htmlCandidateOf false 200 [("Content-Type", [strBytes "text/html"])] [] =
      candidateYes ∧
    htmlCandidateOf false 404 [("Content-Type", [strBytes "text/html"])] [] =
      candidateNo :=
  ⟨(c7_classifier_rules false 200 [("Content-Type", [strBytes "text/html"])] []).2.1
      (by decide) (Or.inl (by decide)),
    (c7_classifier_rules false 404 [("Content-Type", [strBytes "text/html"])] []).1
      (by decide)⟩

/-- C3 counterexample: a Write call on a fresh plain-text response whose
single underlying sink write fails.  The oracle entry is consumed (the sink
write happened and delivered nothing), yet Write reports full success. -/
theorem c3_counterexample :
    (write plainErrMachine (strBytes "hello")).2.2 = false ∧
      (write plainErrMachine (strBytes "hello")).2.1 = 5 ∧
      (write plainErrMachine (strBytes "hello")).1.errs = [] ∧
      traceBody (write plainErrMachine (strBytes "hello")).1.trace = [] := by
  decide

/-- C3 (amended): errors of underlying writes whose results Write returns
directly are propagated: forwarding in a terminal state returns exactly the
sink's error; the live forward after a content-encoding resolution returns
the error of the post-flush write (the preceding buffered flush, if any,
consumed one oracle entry and its error was discarded); and a failing write
of the spliced buffer in the injection branch is returned as `(len p, err)`. -/
theorem c3_error_propagation (m : Machine) (p : Bytes) :
    (m.state = .passthrough ∨ m.state = .injecting →
      (write m p).2.2 = headErr m.errs ∧ (write m p).1.state = m.state) ∧
    (m.state = .undecided → p ≠ [] → hGet m.header "Content-Encoding" ≠ [] →
      (write m p).2.2 = headErr (if m.buf = [] then m.errs else m.errs.tail)) ∧
    (∀ u, m.state = .undecided → m.wroteHeader = true → p ≠ [] →
      hGet m.header "Content-Encoding" = [] →
      0 < (m.lookaheadLimit : Int) - m.buf.length →
      htmlCandidateOf m.injectOnNon2xx m.status m.header (m.buf ++
        p.take (min p.length (((m.lookaheadLimit : Int) - m.buf.length).toNat))) =
        candidateYes →
      tryInject (m.buf ++
          p.take (min p.length (((m.lookaheadLimit : Int) - m.buf.length).toNat)))
        m.scriptSrc m.websiteID m.injectBeforeTag m.alsoMatchBodyClose = some u →
      headErr m.errs = true →
      (write m p).2.2 = true ∧ (write m p).2.1 = p.length) := by
  refine ⟨?_, ?_, ?_⟩
  · intro hterm
    unfold write writeCore
    have hterm2 : (writeHeaderSW m 200).state = .passthrough ∨
        (writeHeaderSW m 200).state = .injecting := by
      rw [writeHeaderSW_state]
      exact hterm
    rw [if_pos hterm2]
    refine ⟨?_, ?_⟩
    · rw [origWrite_err, flushHeaders_errs, writeHeaderSW_errs]
    · rw [origWrite_state, flushHeaders_state, writeHeaderSW_state]
  · intro hs hp hce
    unfold write writeCore
    have hterm2 : ¬((writeHeaderSW m 200).state = .passthrough ∨
        (writeHeaderSW m 200).state = .injecting) := by
      rw [writeHeaderSW_state, hs]
      rintro (h | h) <;> exact Decision.noConfusion h
    rw [if_neg hterm2, if_neg hp,
      if_pos (show hGet (writeHeaderSW m 200).header "Content-Encoding" ≠ [] by
        rw [writeHeaderSW_header]; exact hce)]
    rw [origWrite_err]
    have hres : (resolvePassthrough (writeHeaderSW m 200)).errs =
        (if m.buf = [] then m.errs else m.errs.tail) := by
      unfold resolvePassthrough flushBuffer
      have hfb : (flushHeaders
          { writeHeaderSW m 200 with state := Decision.passthrough }).buf = m.buf := by
        rw [flushHeaders_buf]
        exact writeHeaderSW_buf m 200
      rw [hfb]
      by_cases hb : m.buf = []
      · rw [if_pos hb, if_pos hb, flushHeaders_errs]
        exact writeHeaderSW_errs m 200
      · rw [if_neg hb, if_neg hb]
        show (origWrite (flushHeaders
          { writeHeaderSW m 200 with state := Decision.passthrough }) m.buf).1.errs =
          m.errs.tail
        rw [origWrite_errs_keep, flushHeaders_errs]
        show (writeHeaderSW m 200).errs.tail = m.errs.tail
        rw [writeHeaderSW_errs]
    rw [hres]
  · intro u hs hw hp hce hrem hcand hinj herr
    have hmW : writeHeaderSW m 200 = m := by
      unfold writeHeaderSW
      rw [if_pos hw]
    unfold write
    rw [hmW]
    unfold writeCore
    have hterm : ¬(m.state = .passthrough ∨ m.state = .injecting) := by
      rw [hs]
      rintro (h | h) <;> exact Decision.noConfusion h
    rw [if_neg hterm, if_neg hp, if_neg (not_not_intro hce),
      if_neg (by omega : ¬((m.lookaheadLimit : Int) - m.buf.length ≤ 0))]
    dsimp only
    have hcont : subContains m.scriptSrc (m.buf ++
        p.take (min p.length (((m.lookaheadLimit : Int) - m.buf.length).toNat))) =
        false := tryInject_some_no_src hinj
    rw [if_neg (by rw [hcand]; decide), if_neg (by rw [hcont]; exact Bool.false_ne_true),
      if_neg (by rw [hcand]; decide), hinj]
    dsimp only
    have hcondtrue : (origWrite (flushHeaders (prepareHeadersForInjection
        { m with
          buf := m.buf ++
            p.take (min p.length (((m.lookaheadLimit : Int) - m.buf.length).toNat))
          state := Decision.injecting })) u).2.2 = true := by
      rw [origWrite_err, flushHeaders_errs]
      exact herr
    rw [if_pos hcondtrue]
    exact ⟨rfl, rfl⟩

/-- C3 witness: a terminal forward over a failing sink returns the sink's
error; a buffered content-encoding resolution propagates the live forward's
error; a failing spliced-buffer write is returned as an error. -/
theorem c3_error_propagation_witness :
    ((write termErrMachine (strBytes "x")).2.2 = headErr termErrMachine.errs ∧
      (write termErrMachine (strBytes "x")).1.state = termErrMachine.state) ∧
    (write ceBufErrMachine (strBytes "live")).2.2 =
      headErr (if ceBufErrMachine.buf = [] then ceBufErrMachine.errs
        else ceBufErrMachine.errs.tail) ∧
    (write injErrMachine (strBytes "<head></head>")).2.2 = true ∧
    (write injErrMachine (strBytes "<head></head>")).2.1 =
      (strBytes "<head></head>").length :=
  ⟨(c3_error_propagation termErrMachine (strBytes "x")).1 (Or.inl rfl),
    (c3_error_propagation ceBufErrMachine (strBytes "live")).2.1 rfl (by decide)
      (by decide),
    (c3_error_propagation injErrMachine (strBytes "<head></head>")).2.2
      ((strBytes "<head></head>").take 6 ++
        snippetBytes (strBytes "S") (strBytes "abc") ++
        (strBytes "<head></head>").drop 6)
      rfl rfl (by decide) rfl (by decide) (by decide) (by decide) rfl⟩

/-- C1: every byte of every chunk reaches the sink exactly once and in order;
in the injecting case the snippet is spliced in at one point; when neither
target occurs within the look-ahead ceiling the output is byte-identical. -/
theorem c1_byte_stream_integrity (m0 : Machine) (chunks : List Bytes) (hInit : Init m0) :
    ((runResponse m0 chunks).state = .passthrough ∨
        (runResponse m0 chunks).state = .injecting) ∧
      ((runResponse m0 chunks).state = .passthrough →
        traceBody (runResponse m0 chunks).trace = chunks.flatten) ∧
      ((runResponse m0 chunks).state = .injecting →
        ∃ x y, chunks.flatten = x ++ y ∧
          traceBody (runResponse m0 chunks).trace =
            x ++ snippetOf (runResponse m0 chunks) ++ y) ∧
      (¬targetSeen m0 (chunks.flatten.take m0.lookaheadLimit) →
        traceBody (runResponse m0 chunks).trace = chunks.flatten) := by
  obtain ⟨h1, h2, h3, _, _, _, hp⟩ := runResponse_facts m0 chunks hInit
  refine ⟨h1, fun h => (h2 h).1, fun h => (h3 h).1, ?_⟩
  intro hnt
  rcases h1 with h | h
  · exact (h2 h).1
  · exfalso
    have hts := (h3 h).2.2
    rw [hp.2.2.2.2.2] at hts
    exact hnt (targetSeen_params hp hts)

/-- C1 witness: a target-free response is forwarded byte-identically. -/
theorem c1_byte_stream_integrity_witness :
    ((runResponse sampleMachine [strBytes "<p>plain text"]).state = .passthrough ∨
        (runResponse sampleMachine [strBytes "<p>plain text"]).state = .injecting) ∧
      ((runResponse sampleMachine [strBytes "<p>plain text"]).state = .passthrough →
        traceBody (runResponse sampleMachine [strBytes "<p>plain text"]).trace =
          [strBytes "<p>plain text"].flatten) ∧
      ((runResponse sampleMachine [strBytes "<p>plain text"]).state = .injecting →
        ∃ x y, [strBytes "<p>plain text"].flatten = x ++ y ∧
          traceBody (runResponse sampleMachine [strBytes "<p>plain text"]).trace =
            x ++ snippetOf (runResponse sampleMachine [strBytes "<p>plain text"]) ++ y) ∧
      (¬targetSeen sampleMachine
          ([strBytes "<p>plain text"].flatten.take sampleMachine.lookaheadLimit) →
        traceBody (runResponse sampleMachine [strBytes "<p>plain text"]).trace =
          [strBytes "<p>plain text"].flatten) :=
  c1_byte_stream_integrity sampleMachine [strBytes "<p>plain text"] ⟨rfl, rfl, rfl, rfl, rfl⟩

/-- C4: the decision starts undecided and is monotonic under every operation,
and in a terminal state every chunk is forwarded to the sink unchanged. -/
theorem c4_decision_monotone (m : Machine) (p : Bytes) (h : m.state ≠ .undecided) :
    (write m p).1.state = m.state ∧ (flushCall m).state = m.state ∧
      (hijack m).1.state = m.state ∧ (finish m).state = m.state ∧
      (∀ (li : Int) (ss wid ibt : Bytes) (a b hj fl : Bool),
        (newStreamWriter li ss wid ibt a b hj fl).state = .undecided) ∧
      (m.errs = [] → traceBody (write m p).1.trace = traceBody m.trace ++ p) := by
  have hterm : m.state = .passthrough ∨ m.state = .injecting := by
    cases hstate : m.state
    · exact absurd hstate h
    · exact Or.inl rfl
    · exact Or.inr rfl
  have hterm2 : (writeHeaderSW m 200).state = .passthrough ∨
      (writeHeaderSW m 200).state = .injecting := by
    rw [writeHeaderSW_state]
    exact hterm
  refine ⟨?_, ?_, ?_, ?_, fun li ss wid ibt a b hj fl => rfl, ?_⟩
  · unfold write writeCore
    rw [if_pos hterm2, origWrite_state, flushHeaders_state, writeHeaderSW_state]
  · unfold flushCall
    rw [if_neg h]
    dsimp only
    split <;> rfl
  · unfold hijack
    dsimp only
    rw [if_neg h]
    split <;> rfl
  · unfold finish
    rw [if_neg h]
  · intro he
    unfold write writeCore
    rw [if_pos hterm2]
    have he2 : (flushHeaders (writeHeaderSW m 200)).errs = [] := by
      rw [flushHeaders_errs, writeHeaderSW_errs]
      exact he
    rw [origWrite_ok _ _ he2]
    dsimp only
    rw [traceBody_append, traceBody_single_writeEv, flushHeaders_bodyTrace,
      writeHeaderSW_trace]

/-- C4 witness: monotonicity and unchanged forwarding at a passthrough state. -/
theorem c4_decision_monotone_witness :
    ((write passMachine (strBytes "x")).1.state = passMachine.state ∧
      (flushCall passMachine).state = passMachine.state ∧
      (hijack passMachine).1.state = passMachine.state ∧
      (finish passMachine).state = passMachine.state ∧
      (∀ (li : Int) (ss wid ibt : Bytes) (a b hj fl : Bool),
        (newStreamWriter li ss wid ibt a b hj fl).state = .undecided) ∧
      (passMachine.errs = [] →
        traceBody (write passMachine (strBytes "x")).1.trace =
          traceBody passMachine.trace ++ strBytes "x")) :=
  c4_decision_monotone passMachine (strBytes "x") (by decide)

/-- C5: exactly one status commit and one header-set copy per response, both
before the first body byte; a repeated header flush is a no-op. -/
theorem c5_single_header_flush (m0 : Machine) (chunks : List Bytes) (m : Machine)
    (hInit : Init m0) (hf : m.headersFlushed = true) :
    traceStatuses (runResponse m0 chunks).trace = [(runResponse m0 chunks).status] ∧
      traceHeaderSets (runResponse m0 chunks).trace = [(runResponse m0 chunks).header] ∧
      headerLeadsBody (runResponse m0 chunks).trace = true ∧
      flushHeaders m = m := by
  obtain ⟨_, _, _, h4, h5, h6, _⟩ := runResponse_facts m0 chunks hInit
  exact ⟨h4, h5, h6, flushHeaders_id m hf⟩

/-- C5 witness: a concrete empty response and a concrete flushed machine. -/
theorem c5_single_header_flush_witness :
    traceStatuses (runResponse sampleMachine []).trace =
        [(runResponse sampleMachine []).status] ∧
      traceHeaderSets (runResponse sampleMachine []).trace =
        [(runResponse sampleMachine []).header] ∧
      headerLeadsBody (runResponse sampleMachine []).trace = true ∧
      flushHeaders passMachine = passMachine :=
  c5_single_header_flush sampleMachine [] passMachine ⟨rfl, rfl, rfl, rfl, rfl⟩ rfl

/-- C6: the emitted header set equals the captured one, with `Content-Length`
and `ETag` deleted exactly when the decision is injecting. -/
theorem c6_header_projection (m0 : Machine) (chunks : List Bytes) (hInit : Init m0) :
    ((runResponse m0 chunks).state = .injecting →
      traceHeaderSets (runResponse m0 chunks).trace =
        [hDel (hDel m0.header "Content-Length") "ETag"]) ∧
    ((runResponse m0 chunks).state = .passthrough →
      traceHeaderSets (runResponse m0 chunks).trace = [m0.header]) := by
  obtain ⟨_, h2, h3, _, h5, _, _⟩ := runResponse_facts m0 chunks hInit
  constructor
  · intro h
    rw [h5, (h3 h).2.1]
  · intro h
    rw [h5, (h2 h).2]

/-- C6 witness: an injected response strips the two headers. -/
theorem c6_header_projection_witness :
    ((runResponse sampleMachine [strBytes "<head></head>"]).state = .injecting →
      traceHeaderSets (runResponse sampleMachine [strBytes "<head></head>"]).trace =
        [hDel (hDel sampleMachine.header "Content-Length") "ETag"]) ∧
    ((runResponse sampleMachine [strBytes "<head></head>"]).state = .passthrough →
      traceHeaderSets (runResponse sampleMachine [strBytes "<head></head>"]).trace =
        [sampleMachine.header]) :=
  c6_header_projection sampleMachine [strBytes "<head></head>"] ⟨rfl, rfl, rfl, rfl, rfl⟩

/-- C9: a buffer already containing the snippet resolves to passthrough with
no insertion, and the output of a successful splice admits no second splice. -/
theorem c9_injection_idempotent :
    (∀ (m : Machine) (p : Bytes), m.state = .undecided → m.wroteHeader = true →
      m.errs = [] → p ≠ [] →
      subContains (snippetBytes m.scriptSrc m.websiteID) m.buf = true →
      (write m p).1.state = .passthrough ∧
        traceBody (write m p).1.trace = traceBody m.trace ++ m.buf ++ p) ∧
    (∀ (pfx s w tgt tail : Bytes) (also : Bool) (u : Bytes),
      tryInject pfx s w tgt also = some u →
      tryInject (u ++ tail) s w tgt also = none) := by
  constructor
  · intro m p hs hw he hp hcsn
    have hcsrc : subContains m.scriptSrc m.buf = true :=
      subContains_trans (snippet_contains_src m.scriptSrc m.websiteID) hcsn
    have hmW : writeHeaderSW m 200 = m := by
      unfold writeHeaderSW
      rw [if_pos hw]
    unfold write
    rw [hmW]
    exact writeCore_src_buffered m p hs he hp hcsrc
  · intro pfx s w tgt tail also u hu
    have hc : subContains s (u ++ tail) = true :=
      subContains_append_right tail (tryInject_out_contains hu)
    simp [tryInject, hc]

/-- C9 witness: a snippet-holding buffer passes through, and a concrete
spliced output refuses a second splice. -/
theorem c9_injection_idempotent_witness :
    ((write snippetBufMachine (strBytes "<head>")).1.state = .passthrough ∧
      traceBody (write snippetBufMachine (strBytes "<head>")).1.trace =
        traceBody snippetBufMachine.trace ++ snippetBufMachine.buf ++ strBytes "<head>") ∧
    tryInject (((strBytes "<head></head>").take 6 ++
        snippetBytes (strBytes "S") (strBytes "abc") ++
        (strBytes "<head></head>").drop 6) ++ strBytes "!")
      (strBytes "S") (strBytes "abc") (strBytes "</head>") true = none :=
  ⟨c9_injection_idempotent.1 snippetBufMachine (strBytes "<head>") rfl rfl rfl
      (by decide) (by decide),
    c9_injection_idempotent.2 (strBytes "<head></head>") (strBytes "S") (strBytes "abc")
      (strBytes "</head>") (strBytes "!") true _ (by decide)⟩

/-- C10: a Write that partially absorbs its chunk and resolves to passthrough
returns only the remainder count, below the chunk length, although every byte
was forwarded. -/
theorem c10_partial_absorb_count (m : Machine) (p : Bytes)
    (hs : m.state = .undecided) (hw : m.wroteHeader = true) (he : m.errs = [])
    (hce : hGet m.header "Content-Encoding" = [])
    (hrem : 0 < (m.lookaheadLimit : Int) - m.buf.length)
    (hlt : ((m.lookaheadLimit : Int) - m.buf.length).toNat < p.length)
    (hcand : htmlCandidateOf m.injectOnNon2xx m.status m.header
      (m.buf ++ p.take (((m.lookaheadLimit : Int) - m.buf.length).toNat)) = candidateNo) :
    (write m p).2.1 = p.length - ((m.lookaheadLimit : Int) - m.buf.length).toNat ∧
      (write m p).2.1 < p.length ∧ (write m p).2.2 = false ∧
      (write m p).1.state = .passthrough ∧
      traceBody (write m p).1.trace = traceBody m.trace ++ m.buf ++ p := by
  have hmW : writeHeaderSW m 200 = m := by
    unfold writeHeaderSW
    rw [if_pos hw]
  unfold write
  rw [hmW]
  exact writeCore_short_count m p hs he hce hrem hlt hcand

/-- C10 witness: an 8-byte chunk against a 4-byte ceiling reports 4. -/
theorem c10_partial_absorb_count_witness :
    (write tinyPlainMachine (strBytes "12345678")).2.1 =
        (strBytes "12345678").length -
          ((tinyPlainMachine.lookaheadLimit : Int) -
            tinyPlainMachine.buf.length).toNat ∧
      (write tinyPlainMachine (strBytes "12345678")).2.1 <
        (strBytes "12345678").length ∧
      (write tinyPlainMachine (strBytes "12345678")).2.2 = false ∧
      (write tinyPlainMachine (strBytes "12345678")).1.state = .passthrough ∧
      traceBody (write tinyPlainMachine (strBytes "12345678")).1.trace =
        traceBody tinyPlainMachine.trace ++ tinyPlainMachine.buf ++
          strBytes "12345678" :=
  c10_partial_absorb_count tinyPlainMachine (strBytes "12345678") rfl rfl rfl
    (by decide) (by decide) (by decide) (by decide)

/-- C8: a downstream flush or a supported hijack on an undecided response
resolves it to passthrough, emitting headers and the held-back buffer before
the delegate event, so raw stream control never runs with bytes held back;
an unsupported hijack fails without touching the response. -/
theorem c8_flush_hijack_resolve (m : Machine) (hs : m.state = .undecided)
    (hf : m.headersFlushed = false) (he : m.errs = []) :
    (flushCall m).state = .passthrough ∧ (flushCall m).buf = [] ∧
      (flushCall m).headersFlushed = true ∧
      (flushCall m).trace = m.trace ++ SinkEv.setHeadersEv m.header ::
        SinkEv.writeHeaderEv m.status ::
        ((if m.buf = [] then [] else [SinkEv.writeEv m.buf]) ++
          (if m.flushable = true then [SinkEv.flushEv] else [])) ∧
      (m.hijackable = false → hijack m = (m, true)) ∧
      (m.hijackable = true → (hijack m).2 = false ∧
        (hijack m).1.state = .passthrough ∧ (hijack m).1.buf = [] ∧
        (hijack m).1.headersFlushed = true ∧
        (hijack m).1.trace = m.trace ++ SinkEv.setHeadersEv m.header ::
          SinkEv.writeHeaderEv m.status ::
          ((if m.buf = [] then [] else [SinkEv.writeEv m.buf]) ++ [SinkEv.hijackEv])) := by
  have hflush := resolvePassthrough_eq m hf he
  have hHna : m.hijackable = false → hijack m = (m, true) := by
    intro hh
    unfold hijack
    rw [hh]
    rfl
  have hHyes : m.hijackable = true → (hijack m).2 = false ∧
      (hijack m).1.state = .passthrough ∧ (hijack m).1.buf = [] ∧
      (hijack m).1.headersFlushed = true ∧
      (hijack m).1.trace = m.trace ++ SinkEv.setHeadersEv m.header ::
        SinkEv.writeHeaderEv m.status ::
        ((if m.buf = [] then [] else [SinkEv.writeEv m.buf]) ++ [SinkEv.hijackEv]) := by
    intro hh
    unfold hijack
    rw [hh]
    simp only [Bool.not_true]
    rw [if_neg Bool.false_ne_true]
    dsimp only
    rw [if_pos hs, hflush]
    refine ⟨rfl, rfl, rfl, rfl, ?_⟩
    dsimp only
    rw [append_flush_assoc]
  unfold flushCall
  rw [if_pos hs, hflush]
  dsimp only
  by_cases hfl : m.flushable = true
  · rw [if_pos hfl, hfl]
    refine ⟨rfl, rfl, rfl, ?_, hHna, hHyes⟩
    dsimp only
    rw [append_flush_assoc]
    simp
  · rw [if_neg hfl]
    have hfl' : m.flushable = false := by simpa using hfl
    rw [hfl']
    refine ⟨rfl, rfl, rfl, ?_, hHna, hHyes⟩
    simp

/-- C8 witness: a flush and a hijack on a concrete undecided buffered state. -/
theorem c8_flush_hijack_resolve_witness :
    (flushCall snippetBufMachine).state = .passthrough ∧
      (flushCall snippetBufMachine).buf = [] ∧
      (flushCall snippetBufMachine).headersFlushed = true ∧
      (flushCall snippetBufMachine).trace = snippetBufMachine.trace ++
        SinkEv.setHeadersEv snippetBufMachine.header ::
        SinkEv.writeHeaderEv snippetBufMachine.status ::
        ((if snippetBufMachine.buf = [] then [] else [SinkEv.writeEv snippetBufMachine.buf]) ++
          (if snippetBufMachine.flushable = true then [SinkEv.flushEv] else [])) ∧
      (snippetBufMachine.hijackable = false → hijack snippetBufMachine =
        (snippetBufMachine, true)) ∧
      (snippetBufMachine.hijackable = true → (hijack snippetBufMachine).2 = false ∧
        (hijack snippetBufMachine).1.state = .passthrough ∧
        (hijack snippetBufMachine).1.buf = [] ∧
        (hijack snippetBufMachine).1.headersFlushed = true ∧
        (hijack snippetBufMachine).1.trace = snippetBufMachine.trace ++
          SinkEv.setHeadersEv snippetBufMachine.header ::
          SinkEv.writeHeaderEv snippetBufMachine.status ::
          ((if snippetBufMachine.buf = []
            then [] else [SinkEv.writeEv snippetBufMachine.buf]) ++ [SinkEv.hijackEv])) :=
  c8_flush_hijack_resolve snippetBufMachine rfl rfl rfl

end TraefikUmami
